import Mathlib

/-
Verification development for the fastclick packet-buffer memory manager.

The embedding covers:
  * the ring primitive family (src/include/click/ring.hh), and
  * the packet object model and per-thread packet pools
    (src/lib/packet.cc), in the configuration the pool code is written
    for: CLICK_USERLEVEL, HAVE_CLICK_PACKET_POOL, HAVE_MULTITHREAD,
    without netmap, BSD, linuxmodule or DPDK backends (those branches
    are compiled out in this configuration).

Pointers are modelled as identifiers plus offsets: a buffer is an
identifier into a store of byte arrays, a Packet is an identifier into
a store of packet records, and the pointer fields _head, _data, _tail,
_end of a Packet become a buffer identifier plus the offsets
_data - _head, _tail - _head and _end - _head.  The intrusive next()
chains of the freelists are represented by explicit lists of packet
identifiers (the list [p1, p2, ...] stands for the chain
p1 -> p2 -> ... -> null).  Machine integers are modelled as Nat with
explicit reduction modulo 2^32 where the code relies on unsigned
wraparound (the ring head/tail counters).
-/

namespace FastclickSpec

/-! ## Ring primitive family (src/include/click/ring.hh) -/

/-- 2^32, the modulus of the uint32_t head and tail counters. -/
def U32 : Nat := 4294967296

/-- Reduction modulo 2^32: the value of a uint32_t expression. -/
def wrap (x : Nat) : Nat := x % U32

/-- State of a `BaseRing<T, RING_SIZE>` (ring.hh lines 9-65): the
backing array `ring` (a total map from slot index to stored value; the
static ring starts zero-initialized), and the uint32_t `head` and
`tail` counters.  The capacity RING_SIZE is passed to each operation
as `N`. -/
structure RingS (T : Type) where
  ring : Nat → T
  head : Nat
  tail : Nat

/-- `head - tail` computed in uint32_t arithmetic (given
`head, tail < 2^32`); this is what `count()` returns and what
`has_space()` compares against RING_SIZE. -/
def rdist {T : Type} (r : RingS T) : Nat := (r.head + U32 - r.tail) % U32

/-- `BaseRing::has_space()` (ring.hh line 13): `head - tail < RING_SIZE`. -/
def hasSpace {T : Type} (N : Nat) (r : RingS T) : Bool := rdist r < N

/-- `BaseRing::is_empty()` (ring.hh line 17): `head == tail`;
equivalently the uint32 difference is zero. -/
def isEmptyR {T : Type} (r : RingS T) : Bool := rdist r = 0

/-- `BaseRing::insert(v)` (ring.hh lines 38-45): if there is space,
store at `head % RING_SIZE`, advance `head`, return true; else return
false. -/
def ringInsert {T : Type} (N : Nat) (r : RingS T) (v : T) : RingS T × Bool :=
  if hasSpace N r then
    ({ r with ring := fun i => if i = r.head % N then v else r.ring i,
              head := wrap (r.head + 1) }, true)
  else
    (r, false)

/-- `BaseRing::extract()` (ring.hh lines 29-36): if nonempty, read
`ring[tail % RING_SIZE]`, advance `tail`; else return the sentinel
`z` (the value 0 / null in the source). -/
def ringExtract {T : Type} (z : T) (N : Nat) (r : RingS T) : RingS T × T :=
  if isEmptyR r then (r, z)
  else ({ r with tail := wrap (r.tail + 1) }, r.ring (r.tail % N))

/-- `BaseRing::count()` (ring.hh line 47): `head - tail` in unsigned
arithmetic. -/
def ringCount {T : Type} (r : RingS T) : Nat := rdist r

/-- `MPMCRing::insert` (ring.hh lines 215-226).  Inside the spinlock
the update is the same as `BaseRing::insert`; the lock only serializes
concurrent callers, which a single sequential transition does not
observe.  `SMPMCRing::insert` (lines 262-275) and `MPSCRing::insert`
(lines 306-317) perform the identical critical section. -/
def mpmcInsert {T : Type} (N : Nat) (r : RingS T) (v : T) : RingS T × Bool :=
  if hasSpace N r then
    ({ r with ring := fun i => if i = r.head % N then v else r.ring i,
              head := wrap (r.head + 1) }, true)
  else
    (r, false)

/-- `MPMCRing::extract` (ring.hh lines 228-239); same critical section
as `BaseRing::extract`. -/
def mpmcExtract {T : Type} (z : T) (N : Nat) (r : RingS T) : RingS T × T :=
  if isEmptyR r then (r, z)
  else ({ r with tail := wrap (r.tail + 1) }, r.ring (r.tail % N))

/-- Structural invariant of a ring of capacity `N`: the counters are
in uint32 range and at most `N` elements are outstanding. -/
def RingInv {T : Type} (N : Nat) (r : RingS T) : Prop :=
  r.head < U32 ∧ r.tail < U32 ∧ rdist r ≤ N

/-- The live slots (the ones between tail and head) hold non-sentinel
values.  The contract of the ring reserves the value 0 / null as the
empty sentinel, never stored (spec section 4.1). -/
def SlotsOk (N : Nat) (r : RingS Nat) : Prop :=
  ∀ i, i < rdist r → r.ring ((r.tail + i) % U32 % N) ≠ 0

/-- Insert each value of `vs` in order; the flag is true iff every
insert succeeded. -/
def insertAll {T : Type} (N : Nat) (r : RingS T) : List T → RingS T × Bool
  | [] => (r, true)
  | v :: vs =>
    let s := ringInsert N r v
    let rest := insertAll N s.1 vs
    (rest.1, s.2 && rest.2)

/-- Extract `k` times, collecting the returned values in order. -/
def extractList {T : Type} (z : T) (N : Nat) (r : RingS T) : Nat → RingS T × List T
  | 0 => (r, [])
  | k + 1 =>
    let s := ringExtract z N r
    let rest := extractList z N s.1 k
    (rest.1, s.2 :: rest.2)

/-- States of a capacity-`N` ring reachable from the initial state
(`BaseRing()` sets head = tail = 0; the backing array of the static
global ring is zero-initialized).  Stored values are non-null
pointers, so inserts carry values distinct from the 0 sentinel. -/
inductive RingReach (N : Nat) : RingS Nat → Prop
  | init : RingReach N ⟨fun _ => 0, 0, 0⟩
  | ins (r : RingS Nat) (v : Nat) : RingReach N r → v ≠ 0 →
      RingReach N (ringInsert N r v).1
  | ext (r : RingS Nat) : RingReach N r → RingReach N (ringExtract 0 N r).1

/-- The contract claim C9 asserts of a capacity-`N` ring at a state
`r`: the fullness test, the emptiness test, the count behaviour and
FIFO value order, all in terms of the wraparound counters. -/
def ringWrapContract (N : Nat) (r : RingS Nat) : Prop :=
  (∀ v : Nat, (ringInsert N r v).2 = false ↔ rdist r = N) ∧
  ((ringExtract 0 N r).2 = 0 ↔ rdist r = 0) ∧
  (∀ v : Nat, rdist r < N → rdist (ringInsert N r v).1 = rdist r + 1) ∧
  (rdist r ≠ 0 → rdist (ringExtract 0 N r).1 = rdist r - 1) ∧
  (∀ vs : List Nat, vs.length = N → (∀ v ∈ vs, v ≠ 0) → rdist r = 0 →
    (insertAll N r vs).2 = true ∧
    (extractList 0 N (insertAll N r vs).1 N).2 = vs)

/-! ### Ring arithmetic facts -/

theorem rdist_lt_U32 {T : Type} (r : RingS T) : rdist r < U32 := by
  simp only [rdist, U32]
  omega

theorem head_eq_tail_add {T : Type} (r : RingS T)
    (h1 : r.head < U32) (h2 : r.tail < U32) :
    r.head = (r.tail + rdist r) % U32 := by
  simp only [rdist, U32] at *
  omega

theorem mod_U32_mod (N : Nat) (hd : N ∣ U32) (x : Nat) :
    x % U32 % N = x % N :=
  Nat.mod_mod_of_dvd x hd

/-- Abstraction map: the queue of values currently held by the ring,
oldest first.  (Positions are taken modulo `N` directly; this matches
the slots the code reads when `N` divides 2^32.) -/
def absQ (N : Nat) (r : RingS Nat) : List Nat :=
  (List.range (rdist r)).map (fun i => r.ring ((r.tail + i) % N))

theorem absQ_length (N : Nat) (r : RingS Nat) :
    (absQ N r).length = rdist r := by
  simp [absQ]

theorem ringInsert_full (N : Nat) (r : RingS Nat) (v : Nat)
    (h : rdist r = N) : ringInsert N r v = (r, false) := by
  simp [ringInsert, hasSpace, h]


theorem mod_ne_of_close (N x y : Nat) (hxy : x < y) (hlt : y - x < N) :
    x % N ≠ y % N := by
  intro h
  have hdvd : N ∣ y - x := (Nat.modEq_iff_dvd' (Nat.le_of_lt hxy)).mp h
  have hle : N ≤ y - x := Nat.le_of_dvd (by omega) hdvd
  omega

theorem ringInsert_pos {T : Type} (N : Nat) (r : RingS T) (v : T)
    (h : rdist r < N) :
    ringInsert N r v =
      ({ r with ring := fun i => if i = r.head % N then v else r.ring i,
                head := wrap (r.head + 1) }, true) := by
  simp [ringInsert, hasSpace, h]

theorem ringInsert_neg {T : Type} (N : Nat) (r : RingS T) (v : T)
    (h : ¬ rdist r < N) : ringInsert N r v = (r, false) := by
  simp [ringInsert, hasSpace, h]

theorem ringExtract_pos {T : Type} (z : T) (N : Nat) (r : RingS T)
    (h : rdist r ≠ 0) :
    ringExtract z N r =
      ({ r with tail := wrap (r.tail + 1) }, r.ring (r.tail % N)) := by
  simp [ringExtract, isEmptyR, h]

theorem ringExtract_zero {T : Type} (z : T) (N : Nat) (r : RingS T)
    (h : rdist r = 0) : ringExtract z N r = (r, z) := by
  simp [ringExtract, isEmptyR, h]

theorem rdist_insert {T : Type} (N : Nat) (r : RingS T) (v : T)
    (h : rdist r < N) (hH : r.head < U32) (hT : r.tail < U32)
    (hN : N < U32) :
    rdist (ringInsert N r v).1 = rdist r + 1 := by
  rw [ringInsert_pos N r v h]
  simp only [rdist, wrap, U32] at *
  omega

theorem rdist_extract {T : Type} (z : T) (N : Nat) (r : RingS T)
    (h : rdist r ≠ 0) (hH : r.head < U32) (hT : r.tail < U32) :
    rdist (ringExtract z N r).1 = rdist r - 1 := by
  rw [ringExtract_pos z N r h]
  simp only [rdist, wrap, U32] at *
  omega

theorem ringInsert_inv {T : Type} (N : Nat) (r : RingS T) (v : T)
    (hI : RingInv N r) : RingInv N (ringInsert N r v).1 := by
  obtain ⟨h1, h2, h3⟩ := hI
  by_cases h : rdist r < N
  · rw [ringInsert_pos N r v h]
    refine ⟨?_, h2, ?_⟩ <;> simp only [rdist, wrap, U32] at * <;> omega
  · rw [ringInsert_neg N r v h]
    exact ⟨h1, h2, h3⟩

theorem ringExtract_inv {T : Type} (z : T) (N : Nat) (r : RingS T)
    (hI : RingInv N r) : RingInv N (ringExtract z N r).1 := by
  obtain ⟨h1, h2, h3⟩ := hI
  by_cases h : rdist r = 0
  · rw [ringExtract_zero z N r h]
    exact ⟨h1, h2, h3⟩
  · rw [ringExtract_pos z N r h]
    refine ⟨h1, ?_, ?_⟩ <;> simp only [rdist, wrap, U32] at * <;> omega


theorem slotsOk_insert (N : Nat) (r : RingS Nat) (v : Nat) (hv : v ≠ 0)
    (hH : r.head < U32) (hT : r.tail < U32) (hN : N < U32)
    (hS : SlotsOk N r) : SlotsOk N (ringInsert N r v).1 := by
  by_cases h : rdist r < N
  · have hd : rdist (ringInsert N r v).1 = rdist r + 1 :=
      rdist_insert N r v h hH hT hN
    rw [ringInsert_pos N r v h] at *
    intro i hi
    simp only at *
    rw [hd] at hi
    by_cases hp : (r.tail + i) % U32 % N = r.head % N
    · simp [hp, hv]
    · have hir : i ≠ rdist r := by
        intro he
        apply hp
        rw [he, ← head_eq_tail_add r hH hT]
      have : i < rdist r := by omega
      simp only [hp, if_false]
      exact hS i this
  · rw [ringInsert_neg N r v h]
    exact hS

theorem slotsOk_extract (N : Nat) (r : RingS Nat)
    (hH : r.head < U32) (hT : r.tail < U32)
    (hS : SlotsOk N r) : SlotsOk N (ringExtract 0 N r).1 := by
  by_cases h : rdist r = 0
  · rw [ringExtract_zero 0 N r h]
    exact hS
  · have hd : rdist (ringExtract 0 N r).1 = rdist r - 1 :=
      rdist_extract 0 N r h hH hT
    rw [ringExtract_pos 0 N r h] at *
    intro i hi
    simp only at *
    rw [hd] at hi
    have hpos : (wrap (r.tail + 1) + i) % U32 = (r.tail + (i + 1)) % U32 := by
      simp only [wrap, U32]
      omega
    rw [hpos]
    exact hS (i + 1) (by omega)

theorem ringReach_inv (N : Nat) (r : RingS Nat) (hN : N < U32)
    (h : RingReach N r) : RingInv N r ∧ SlotsOk N r := by
  induction h with
  | init =>
      constructor
      · refine ⟨by simp [U32], by simp [U32], ?_⟩
        simp [rdist, U32]
      · intro i hi
        simp [rdist, U32] at hi
  | ins r v hr hv ih =>
      exact ⟨ringInsert_inv N r v ih.1,
        slotsOk_insert N r v hv ih.1.1 ih.1.2.1 hN ih.2⟩
  | ext r hr ih =>
      exact ⟨ringExtract_inv 0 N r ih.1,
        slotsOk_extract N r ih.1.1 ih.1.2.1 ih.2⟩


theorem absQ_insert (N : Nat) (r : RingS Nat) (v : Nat) (hd : N ∣ U32)
    (hH : r.head < U32) (hT : r.tail < U32) (hN : N < U32)
    (h : rdist r < N) :
    absQ N (ringInsert N r v).1 = absQ N r ++ [v] := by
  have hstep := rdist_insert N r v h hH hT hN
  have hhead : r.head % N = (r.tail + rdist r) % N := by
    conv_lhs => rw [head_eq_tail_add r hH hT]
    exact mod_U32_mod N hd _
  rw [ringInsert_pos N r v h] at *
  simp only [absQ] at *
  rw [hstep, List.range_succ, List.map_append]
  congr 1
  · apply List.map_congr_left
    intro i hi
    rw [List.mem_range] at hi
    dsimp only
    rw [if_neg]
    rw [hhead]
    exact mod_ne_of_close N (r.tail + i) (r.tail + rdist r) (by omega) (by omega)
  · simp only [List.map_cons, List.map_nil]
    rw [if_pos]
    rw [hhead]

theorem absQ_extract (N : Nat) (r : RingS Nat) (hd : N ∣ U32)
    (hH : r.head < U32) (hT : r.tail < U32) (h : rdist r ≠ 0) :
    absQ N r = (ringExtract 0 N r).2 :: absQ N (ringExtract 0 N r).1 := by
  have hstep := rdist_extract 0 N r h hH hT
  rw [ringExtract_pos 0 N r h] at *
  simp only [absQ] at *
  rw [hstep]
  have hdecomp : rdist r = (rdist r - 1) + 1 := by omega
  conv_lhs => rw [hdecomp]
  rw [List.range_succ_eq_map, List.map_cons, List.map_map]
  refine congrArg₂ List.cons ?_ ?_
  · simp
  · apply List.map_congr_left
    intro i hi
    rw [List.mem_range] at hi
    simp only [Function.comp_apply]
    have hx : (wrap (r.tail + 1) + i) % N = (r.tail + 1 + i) % N := by
      conv_lhs => rw [Nat.add_mod]
      rw [wrap, mod_U32_mod N hd, ← Nat.add_mod]
    rw [hx]
    have hy : r.tail + 1 + i = r.tail + (i + 1) := by omega
    rw [hy]

theorem insertAll_spec (N : Nat) (hd : N ∣ U32) (hN : N < U32) :
    ∀ (vs : List Nat) (r : RingS Nat), RingInv N r →
      rdist r + vs.length ≤ N →
      (insertAll N r vs).2 = true ∧
      RingInv N (insertAll N r vs).1 ∧
      rdist (insertAll N r vs).1 = rdist r + vs.length ∧
      absQ N (insertAll N r vs).1 = absQ N r ++ vs := by
  intro vs
  induction vs with
  | nil =>
      intro r hI hlen
      simp [insertAll, hI]
  | cons v vs ih =>
      intro r hI hlen
      have hlt : rdist r < N := by
        simp only [List.length_cons] at hlen
        omega
      have hflag : (ringInsert N r v).2 = true := by
        rw [ringInsert_pos N r v hlt]
      have hinv1 : RingInv N (ringInsert N r v).1 := ringInsert_inv N r v hI
      have hr1 : rdist (ringInsert N r v).1 = rdist r + 1 :=
        rdist_insert N r v hlt hI.1 hI.2.1 hN
      have habs1 : absQ N (ringInsert N r v).1 = absQ N r ++ [v] :=
        absQ_insert N r v hd hI.1 hI.2.1 hN hlt
      have hrest := ih (ringInsert N r v).1 hinv1
        (by simp only [List.length_cons] at hlen; omega)
      simp only [insertAll]
      refine ⟨by simp [hflag, hrest.1], hrest.2.1, ?_, ?_⟩
      · rw [hrest.2.2.1, hr1]
        simp only [List.length_cons]
        omega
      · rw [hrest.2.2.2, habs1]
        simp

theorem extractList_spec (N : Nat) (hd : N ∣ U32) :
    ∀ (k : Nat) (r : RingS Nat), RingInv N r → k ≤ rdist r →
      (extractList 0 N r k).2 = (absQ N r).take k ∧
      RingInv N (extractList 0 N r k).1 ∧
      rdist (extractList 0 N r k).1 = rdist r - k := by
  intro k
  induction k with
  | zero =>
      intro r hI hk
      simp [extractList, hI]
  | succ k ih =>
      intro r hI hk
      have hne : rdist r ≠ 0 := by omega
      have habs := absQ_extract N r hd hI.1 hI.2.1 hne
      have hinv1 : RingInv N (ringExtract 0 N r).1 := ringExtract_inv 0 N r hI
      have hr1 : rdist (ringExtract 0 N r).1 = rdist r - 1 :=
        rdist_extract 0 N r hne hI.1 hI.2.1
      have hrest := ih (ringExtract 0 N r).1 hinv1 (by omega)
      simp only [extractList]
      refine ⟨?_, hrest.2.1, ?_⟩
      · rw [hrest.1, habs]
        simp
      · rw [hrest.2.2, hr1]
        omega


/-- The zero-initialized ring state produced by `BaseRing()` for a
static ring object. -/
def rinit0 : RingS Nat := ⟨fun _ => 0, 0, 0⟩

/-- Reachability of an idle (empty) ring at any counter value below
2^32: repeated insert/extract pairs advance head and tail together. -/
theorem reach_idle (N : Nat) (hN : 0 < N) :
    ∀ k, k < U32 → ∃ f, RingReach N ⟨f, k, k⟩ := by
  intro k
  induction k with
  | zero => exact fun _ => ⟨fun _ => 0, RingReach.init⟩
  | succ k ih =>
      intro hk1
      obtain ⟨f, hf⟩ := ih (by omega)
      have hr0 : rdist (⟨f, k, k⟩ : RingS Nat) < N := by
        have : rdist (⟨f, k, k⟩ : RingS Nat) = 0 := by
          simp only [rdist, U32]
          omega
        omega
      have h1 := RingReach.ins (N := N) ⟨f, k, k⟩ 1 hf one_ne_zero
      rw [ringInsert_pos N _ 1 hr0] at h1
      dsimp only at h1
      have hwk : wrap (k + 1) = k + 1 := by
        simp only [wrap, U32] at *
        omega
      rw [hwk] at h1
      have hne : rdist (⟨fun i => if i = k % N then 1 else f i, k + 1, k⟩ :
          RingS Nat) ≠ 0 := by
        simp only [rdist, U32] at *
        omega
      have h2 := RingReach.ext _ h1
      rw [ringExtract_pos 0 N _ hne] at h2
      dsimp only at h2
      rw [hwk] at h2
      exact ⟨_, h2⟩

/-- C4: for every ring of capacity `N` in the RingPrimitive family
(at a reachable state), `insert(v)` returns false iff the ring is full
(`head - tail == N` in unsigned arithmetic); otherwise it stores `v`
at index `head % N`, advances `head`, and returns true.  `extract()`
returns the sentinel 0 iff the ring is empty (`head == tail`);
otherwise it returns the element at index `tail % N` and advances
`tail`.  `count()` returns `head - tail`.  The MPMC variant performs
the same transition. -/
theorem c4_ring_contract (N : Nat) (r : RingS Nat) (v : Nat)
    (hN : N < U32) (hr : RingReach N r) :
    ((ringInsert N r v).2 = false ↔ rdist r = N) ∧
    (rdist r < N →
      (ringInsert N r v).1.ring (r.head % N) = v ∧
      (ringInsert N r v).1.head = wrap (r.head + 1) ∧
      (ringInsert N r v).1.tail = r.tail ∧
      (ringInsert N r v).2 = true) ∧
    ((ringExtract 0 N r).2 = 0 ↔ r.head = r.tail) ∧
    (rdist r ≠ 0 →
      (ringExtract 0 N r).2 = r.ring (r.tail % N) ∧
      (ringExtract 0 N r).1.tail = wrap (r.tail + 1) ∧
      (ringExtract 0 N r).1.head = r.head) ∧
    ringCount r = rdist r ∧
    mpmcInsert N r v = ringInsert N r v ∧
    mpmcExtract 0 N r = ringExtract 0 N r := by
  obtain ⟨hInv, hSlots⟩ := ringReach_inv N r hN hr
  obtain ⟨hH, hT, hLe⟩ := hInv
  have hht : rdist r = 0 ↔ r.head = r.tail := by
    simp only [rdist, U32] at *
    omega
  refine ⟨?_, ?_, ?_, ?_, rfl, rfl, rfl⟩
  · by_cases hlt : rdist r < N
    · rw [ringInsert_pos N r v hlt]
      simp only
      constructor
      · intro hc
        exact absurd hc (by simp)
      · intro hc
        omega
    · rw [ringInsert_neg N r v hlt]
      simp only
      constructor
      · intro _
        omega
      · intro _
        trivial
  · intro hlt
    rw [ringInsert_pos N r v hlt]
    simp
  · by_cases hz : rdist r = 0
    · rw [ringExtract_zero 0 N r hz]
      simp only
      constructor
      · intro _
        exact hht.mp hz
      · intro _
        trivial
    · rw [ringExtract_pos 0 N r hz]
      simp only
      have hv0 := hSlots 0 (by omega)
      rw [Nat.add_zero, Nat.mod_eq_of_lt hT] at hv0
      constructor
      · intro hc
        exact absurd hc hv0
      · intro hc
        exact absurd hc (by rw [← hht] at hc ⊢; omega)
  · intro hz
    rw [ringExtract_pos 0 N r hz]
    simp

/-- Witness for C4 at capacity 1 on the initial state. -/
theorem c4_ring_contract_witness :
    (1 < U32 ∧ RingReach 1 rinit0) ∧
    (((ringInsert 1 rinit0 7).2 = false ↔ rdist rinit0 = 1) ∧
    (rdist rinit0 < 1 →
      (ringInsert 1 rinit0 7).1.ring (rinit0.head % 1) = 7 ∧
      (ringInsert 1 rinit0 7).1.head = wrap (rinit0.head + 1) ∧
      (ringInsert 1 rinit0 7).1.tail = rinit0.tail ∧
      (ringInsert 1 rinit0 7).2 = true) ∧
    ((ringExtract 0 1 rinit0).2 = 0 ↔ rinit0.head = rinit0.tail) ∧
    (rdist rinit0 ≠ 0 →
      (ringExtract 0 1 rinit0).2 = rinit0.ring (rinit0.tail % 1) ∧
      (ringExtract 0 1 rinit0).1.tail = wrap (rinit0.tail + 1) ∧
      (ringExtract 0 1 rinit0).1.head = rinit0.head) ∧
    ringCount rinit0 = rdist rinit0 ∧
    mpmcInsert 1 rinit0 7 = ringInsert 1 rinit0 7 ∧
    mpmcExtract 0 1 rinit0 = ringExtract 0 1 rinit0) :=
  ⟨⟨by decide, RingReach.init⟩, c4_ring_contract 1 rinit0 7 (by decide) RingReach.init⟩

/-- C9 (amended): the head and tail indices are 32-bit unsigned
counters that are never reset, and the insert/extract/count contract
(fullness test, emptiness test, count, FIFO value order) is preserved
across unsigned wraparound at every reachable state, provided the
capacity `N` divides 2^32 and is below 2^32 (true of every capacity
the code instantiates, e.g. 32).  For other capacities the FIFO part
fails once the counters wrap (see the counterexample). -/
theorem c9_ring_wraparound (N : Nat) (r : RingS Nat)
    (hpos : 0 < N) (hdvd : N ∣ U32) (hN : N < U32)
    (hr : RingReach N r) : ringWrapContract N r := by
  obtain ⟨hInv, hSlots⟩ := ringReach_inv N r hN hr
  obtain ⟨hH, hT, hLe⟩ := hInv
  refine ⟨?_, ?_, ?_, ?_, ?_⟩
  · intro v
    by_cases hlt : rdist r < N
    · rw [ringInsert_pos N r v hlt]
      simp only
      constructor
      · intro hc
        exact absurd hc (by simp)
      · intro hc
        omega
    · rw [ringInsert_neg N r v hlt]
      simp only
      constructor
      · intro _
        omega
      · intro _
        trivial
  · by_cases hz : rdist r = 0
    · rw [ringExtract_zero 0 N r hz]
      simp [hz]
    · rw [ringExtract_pos 0 N r hz]
      simp only
      have hv0 := hSlots 0 (by omega)
      rw [Nat.add_zero, Nat.mod_eq_of_lt hT] at hv0
      constructor
      · intro hc
        exact absurd hc hv0
      · intro hc
        exact absurd hc hz
  · intro v hlt
    exact rdist_insert N r v hlt hH hT hN
  · intro hz
    exact rdist_extract 0 N r hz hH hT
  · intro vs hlen hnz hempty
    have hInv2 : RingInv N r := ⟨hH, hT, hLe⟩
    have habs0 : absQ N r = [] := by
      have := absQ_length N r
      rw [hempty] at this
      exact List.eq_nil_of_length_eq_zero this
    have hins := insertAll_spec N hdvd hN vs r hInv2 (by omega)
    refine ⟨hins.1, ?_⟩
    have hext := extractList_spec N hdvd N (insertAll N r vs).1 hins.2.1
      (by rw [hins.2.2.1, hempty, hlen]; omega)
    rw [hext.1, hins.2.2.2, habs0, List.nil_append, ← hlen, List.take_length]

/-- Witness for C9 (amended) at capacity 32 on the initial state. -/
theorem c9_ring_wraparound_witness :
    (0 < 32 ∧ (32 : Nat) ∣ U32 ∧ 32 < U32 ∧ RingReach 32 rinit0) ∧
    ringWrapContract 32 rinit0 :=
  ⟨⟨by decide, ⟨134217728, by decide⟩, by decide, RingReach.init⟩,
    c9_ring_wraparound 32 rinit0 (by decide) ⟨134217728, by decide⟩
      (by decide) RingReach.init⟩

/-- C9 counterexample: the contract does NOT hold for every capacity
`N` at every reachable state.  At capacity 3 with the counters at
2^32 - 1 (reachable by 2^32 - 1 insert/extract pairs), the first and
second inserts both land in slot 0 because 2^32 - 1 and 2^32 are
congruent modulo neither 3 nor anything compatible, so FIFO order is
lost: the first extract returns the second value. -/
theorem c9_counterexample :
    ¬ (∀ (N : Nat) (r : RingS Nat), 0 < N → RingReach N r →
        ringWrapContract N r) := by
  intro hall
  obtain ⟨f, hf⟩ := reach_idle 3 (by omega) (U32 - 1) (by simp only [U32]; omega)
  have hfifo := (hall 3 ⟨f, U32 - 1, U32 - 1⟩ (by omega) hf).2.2.2.2
  have hr0 : rdist (⟨f, U32 - 1, U32 - 1⟩ : RingS Nat) = 0 := by
    simp only [rdist, U32]
  obtain ⟨hflag, hvals⟩ := hfifo [10, 20, 30] rfl (by decide) hr0
  have e1 : ringInsert 3 (⟨f, U32 - 1, U32 - 1⟩ : RingS Nat) 10 =
      (⟨fun i => if i = (U32 - 1) % 3 then 10 else f i, wrap (U32 - 1 + 1),
        U32 - 1⟩, true) := by
    rw [ringInsert_pos 3 _ 10 (by omega)]
  have hw1 : wrap (U32 - 1 + 1) = 0 := by
    simp only [wrap, U32]
  have hg1 : ((U32 - 1) % 3 : Nat) = 0 := by decide
  rw [hw1, hg1] at e1
  have hr1 : rdist (⟨fun i => if i = 0 then (10:Nat) else f i, 0,
      U32 - 1⟩ : RingS Nat) = 1 := by
    simp only [rdist, U32]
  have e2 : ringInsert 3 (⟨fun i => if i = 0 then (10:Nat) else f i, 0,
      U32 - 1⟩ : RingS Nat) 20 =
      (⟨fun i => if i = 0 % 3 then 20 else
          (if i = 0 then (10:Nat) else f i), wrap (0 + 1), U32 - 1⟩, true) := by
    rw [ringInsert_pos 3 _ 20 (by rw [hr1]; omega)]
  have hw2 : wrap (0 + 1) = 1 := by decide
  have hg2 : ((0 : Nat) % 3) = 0 := by decide
  rw [hw2, hg2] at e2
  have hr2 : rdist (⟨fun i => if i = 0 then (20:Nat) else
      (if i = 0 then (10:Nat) else f i), 1, U32 - 1⟩ : RingS Nat) = 2 := by
    simp only [rdist, U32]
  have e3 : ringInsert 3 (⟨fun i => if i = 0 then (20:Nat) else
      (if i = 0 then (10:Nat) else f i), 1, U32 - 1⟩ : RingS Nat) 30 =
      (⟨fun i => if i = 1 % 3 then 30 else
          (if i = 0 then (20:Nat) else (if i = 0 then (10:Nat) else f i)),
        wrap (1 + 1), U32 - 1⟩, true) := by
    rw [ringInsert_pos 3 _ 30 (by rw [hr2]; omega)]
  have hw3 : wrap (1 + 1) = 2 := by decide
  have hg3 : ((1 : Nat) % 3) = 1 := by decide
  rw [hw3, hg3] at e3
  have hins : (insertAll 3 (⟨f, U32 - 1, U32 - 1⟩ : RingS Nat)
      [10, 20, 30]).1 =
      ⟨fun i => if i = 1 then 30 else
          (if i = 0 then (20:Nat) else (if i = 0 then (10:Nat) else f i)),
        2, U32 - 1⟩ := by
    simp only [insertAll, e1, e2, e3]
  rw [hins] at hvals
  have hr3 : rdist (⟨fun i => if i = 1 then 30 else
      (if i = 0 then (20:Nat) else (if i = 0 then (10:Nat) else f i)),
      2, U32 - 1⟩ : RingS Nat) = 3 := by
    simp only [rdist, U32]
  have e4 : ringExtract 0 3 (⟨fun i => if i = 1 then 30 else
      (if i = 0 then (20:Nat) else (if i = 0 then (10:Nat) else f i)),
      2, U32 - 1⟩ : RingS Nat) =
      (⟨fun i => if i = 1 then 30 else
          (if i = 0 then (20:Nat) else (if i = 0 then (10:Nat) else f i)),
        2, wrap (U32 - 1 + 1)⟩,
        if (U32 - 1) % 3 = 1 then 30 else
          (if (U32 - 1) % 3 = 0 then (20:Nat) else
            (if (U32 - 1) % 3 = 0 then (10:Nat) else f ((U32 - 1) % 3)))) := by
    rw [ringExtract_pos 0 3 _ (by rw [hr3]; omega)]
  have hval : (ringExtract 0 3 (⟨fun i => if i = 1 then 30 else
      (if i = 0 then (20:Nat) else (if i = 0 then (10:Nat) else f i)),
      2, U32 - 1⟩ : RingS Nat)).2 = 20 := by
    rw [e4]
    simp only [hg1]
    norm_num
  simp only [extractList] at hvals
  rw [hval] at hvals
  simp at hvals

/-! ## Packet object model and pools (src/lib/packet.cc) -/

/-- A raw buffer: allocated length and byte content (a total map from
offset to byte value). -/
structure Buf where
  len : Nat
  bytes : Nat → Nat

/-- A Packet / WritablePacket record.  `bufId` is `_head` (the
identifier of the owned or shared buffer; `none` is a null `_head`);
`dataOff`, `tailOff`, `endOff` are `_data - _head`, `_tail - _head`,
`_end - _head`; `dataPacket` is `_data_packet`; `useCount` is
`_use_count`; `hasDtor` records whether `_destructor` is set; `anno`
stands for the annotation block (`anno_u32(0)` is used for batch
counts, so a single word suffices for the verified executions);
`macOff`/`netOff`/`transOff` are the three header pointers, expressed
relative to `_head`. -/
structure Pkt where
  bufId : Option Nat
  dataOff : Nat
  tailOff : Nat
  endOff : Nat
  dataPacket : Option Nat
  useCount : Nat
  hasDtor : Bool
  anno : Nat
  macOff : Option Int
  netOff : Option Int
  transOff : Option Int
deriving DecidableEq

/-- The record produced by `new WritablePacket` (default constructor;
callers initialize the fields before use). -/
def defaultPkt : Pkt :=
  { bufId := none, dataOff := 0, tailOff := 0, endOff := 0,
    dataPacket := none, useCount := 0, hasDtor := false, anno := 0,
    macOff := none, netOff := none, transOff := none }

/-- A thread-local `PacketPool` (packet pools section of packet.cc):
freelist `p` of buffer-less packets with its count `pcount`, and
freelist `pd` of packets with standard data buffers with `pdcount`.
The intrusive `next()` chains are represented as explicit lists. -/
structure PoolTL where
  p : List Nat
  pcount : Nat
  pd : List Nat
  pdcount : Nat
deriving DecidableEq

/-- The machine state: buffer store, packet store, fresh-identifier
counters, this thread's pool, the two global batch rings of
`GlobalPacketPool` (each slot holds a batch: the chain of packet
identifiers and the element count stored in the head packet's
`anno_u32(0)`), and the list of identifiers passed to
`::operator delete` so far. -/
structure Mem where
  bufs : Nat → Option Buf
  nextBuf : Nat
  pkts : Nat → Option Pkt
  nextPkt : Nat
  pool : PoolTL
  pbatch : RingS (Option (List Nat × Nat))
  pdbatch : RingS (Option (List Nat × Nat))
  freed : List Nat

def Mem.getPkt (m : Mem) (i : Nat) : Pkt := (m.pkts i).getD defaultPkt

def Mem.setPkt (m : Mem) (i : Nat) (pk : Pkt) : Mem :=
  { m with pkts := fun j => if j = i then some pk else m.pkts j }

def Mem.setBuf (m : Mem) (b : Nat) (bf : Buf) : Mem :=
  { m with bufs := fun j => if j = b then some bf else m.bufs j }

/-- Release a buffer (`delete[] head`, a destructor callback, or the
backend release); `delete[]` of a null head is a no-op. -/
def Mem.freeBuf (m : Mem) : Option Nat → Mem
  | none => m
  | some b => { m with bufs := fun j => if j = b then none else m.bufs j }

/-- `::operator delete` on a packet shell. -/
def Mem.delPkt (m : Mem) (i : Nat) : Mem :=
  { m with pkts := fun j => if j = i then none else m.pkts j,
           freed := m.freed ++ [i] }

def Mem.byteAt (m : Mem) (b i : Nat) : Nat :=
  match m.bufs b with
  | some bf => bf.bytes i
  | none => 0

def Mem.bufLen (m : Mem) (b : Nat) : Nat :=
  match m.bufs b with
  | some bf => bf.len
  | none => 0

/-- `memcpy(dst + dOff, src + sOff, n)` on byte maps (`memmove`
semantics: the source is read as a snapshot, which is what `memmove`
guarantees for overlapping ranges). -/
def copyBytes (dst : Nat → Nat) (dOff : Nat) (src : Nat → Nat)
    (sOff n : Nat) : Nat → Nat :=
  fun j => if dOff ≤ j ∧ j < dOff + n then src (sOff + (j - dOff)) else dst j

/-- Copy `n` bytes from the byte map `src` (starting at `sOff`) into
buffer `b` at offset `dOff`. -/
def Mem.copyToBuf (m : Mem) (b : Nat) (dOff : Nat) (src : Nat → Nat)
    (sOff n : Nat) : Mem :=
  match m.bufs b with
  | some bf => m.setBuf b { bf with bytes := copyBytes bf.bytes dOff src sOff n }
  | none => m

/-- Modelled from the spec (section 3): `headroom() = data - head`
(accessor of packet.hh, which is not under src/). -/
def Pkt.headroom (pk : Pkt) : Nat := pk.dataOff

/-- Modelled from the spec (section 3): `length() = tail - data`. -/
def Pkt.length (pk : Pkt) : Nat := pk.tailOff - pk.dataOff

/-- Modelled from the spec (section 3): `tailroom() = end - tail`. -/
def Pkt.tailroom (pk : Pkt) : Nat := pk.endOff - pk.tailOff

/-- Modelled from the spec (section 3): `buffer_length() = end - head`. -/
def Pkt.buffer_length (pk : Pkt) : Nat := pk.endOff

/-- Modelled from the spec (sections 3 and 4.2): `shared()` holds iff
the handle references another owner through `_data_packet` or its own
`_use_count` exceeds 1 (packet.hh, not under src/). -/
def Pkt.sharedB (pk : Pkt) : Bool := pk.dataPacket.isSome || decide (1 < pk.useCount)

/-- Modelled from the spec: `Packet::min_buffer_length`, the fixed
minimum buffer length floor (packet.hh, not under src/; the value in
the upstream header is 64). -/
def min_buffer_length : Nat := 64

/-- CLICK_PACKET_POOL_BUFSIZ (packet.cc line 251). -/
def POOL_BUFSIZ : Nat := 2048

/-- CLICK_PACKET_POOL_SIZE (packet.cc line 252). -/
def POOL_SIZE : Nat := 4096

/-- CLICK_GLOBAL_PACKET_POOL_COUNT (packet.cc line 253). -/
def GLOBAL_COUNT : Nat := 32

/-- Modelled from the spec (section 3 invariants and 4.2):
`Packet::initialize()` (packet.hh, not under src/): a fresh handle has
`use_count = 1`, no `_data_packet`, no destructor, zeroed annotations
and null header pointers. -/
def pktInit (pk : Pkt) : Pkt :=
  { pk with useCount := 1, dataPacket := none, hasDtor := false,
            anno := 0, macOff := none, netOff := none, transOff := none }

/-- Modelled from the spec (section 3): `shift_header_annotations`
(packet.hh, not under src/) re-anchors the three header offsets after
the packet data moved by `delta` bytes relative to the buffer start. -/
def shiftHdrs (pk : Pkt) (delta : Int) : Pkt :=
  { pk with macOff := pk.macOff.map (fun x => x + delta),
            netOff := pk.netOff.map (fun x => x + delta),
            transOff := pk.transOff.map (fun x => x + delta) }

/-- `Packet::alloc_data(headroom, length, tailroom)` (packet.cc lines
599-649, CLICK_USERLEVEL branch, no netmap pool): `uint32_t n = length
+ headroom + tailroom` (wrapping uint32 arithmetic, hence the
`% 2^32`); if `n < min_buffer_length`, tailroom (and only tailroom) is
enlarged so that `n` becomes `min_buffer_length`; then
`new unsigned char[n]` (which never returns null - operator new
reports failure by throwing, so the `!d` test of the source cannot
fire) and `_head = d; _data = d + headroom; _tail = _data + length;
_end = _head + n`. -/
def alloc_data (m : Mem) (pid : Nat) (headroom length tailroom : Nat) : Mem :=
  let n := (length + headroom + tailroom) % U32
  let n := if n < min_buffer_length then min_buffer_length else n
  let b := m.nextBuf
  let m1 := { m with
    bufs := fun j => if j = b then some ⟨n, fun _ => 0⟩ else m.bufs j,
    nextBuf := m.nextBuf + 1 }
  let pk := m1.getPkt pid
  m1.setPkt pid { pk with bufId := some b, dataOff := headroom,
                          tailOff := headroom + length, endOff := n }

/-- `WritablePacket::pool_allocate()` (packet.cc lines 308-333,
HAVE_MULTITHREAD): if the thread-local shell freelist is empty, try to
pull one whole batch from the global `pbatch` ring (restoring `pcount`
from the batch head's `anno_u32(0)`); then pop the freelist head, or
fall back to `new WritablePacket`. -/
def p_refill (m : Mem) : Mem :=
  if m.pool.p.isEmpty then
    match mpmcExtract none GLOBAL_COUNT m.pbatch with
    | (r, some bc) =>
        { m with pbatch := r, pool := { m.pool with p := bc.1, pcount := bc.2 } }
    | (r, none) => { m with pbatch := r }
  else m

/-- Pop the head of the shell freelist, or fall back to
`new WritablePacket` (a fresh handle). -/
def p_take (m1 : Mem) : Mem × Nat :=
  match m1.pool.p with
  | q :: rest =>
      ({ m1 with pool :=
          { m1.pool with p := rest, pcount := m1.pool.pcount - 1 } }, q)
  | [] =>
      ({ m1 with
          pkts := fun j => if j = m1.nextPkt then some defaultPkt else m1.pkts j,
          nextPkt := m1.nextPkt + 1 }, m1.nextPkt)

def pool_allocate_shell (m : Mem) : Mem × Nat := p_take (p_refill m)

/-- The refill step of `WritablePacket::pool_data_allocate()`
(packet.cc lines 338-363): when the data freelist is empty, try to
pull a batch from the global `pdbatch` ring. -/
def pd_refill (m : Mem) : Mem :=
  if m.pool.pd.isEmpty then
    match mpmcExtract none GLOBAL_COUNT m.pdbatch with
    | (r, some bc) =>
        { m with pdbatch := r, pool := { m.pool with pd := bc.1, pdcount := bc.2 } }
    | (r, none) => { m with pdbatch := r }
  else m

/-- Pop the head of the data freelist, or fall back to
`new WritablePacket` followed by
`alloc_data(0, CLICK_PACKET_POOL_BUFSIZ, 0)`. -/
def pd_take (m1 : Mem) : Mem × Nat :=
  match m1.pool.pd with
  | q :: rest =>
      ({ m1 with pool :=
          { m1.pool with pd := rest, pdcount := m1.pool.pdcount - 1 } }, q)
  | [] =>
      let pid := m1.nextPkt
      let m2 := { m1 with
          pkts := fun j => if j = pid then some defaultPkt else m1.pkts j,
          nextPkt := m1.nextPkt + 1 }
      (alloc_data m2 pid 0 POOL_BUFSIZ 0, pid)

def pool_data_allocate (m : Mem) : Mem × Nat := pd_take (pd_refill m)

/-- `WritablePacket::pool_allocate(headroom, length, tailroom)`
(packet.cc lines 368-388): when `uint32_t n = headroom + length +
tailroom` (wrapping uint32 arithmetic, hence the `% 2^32`) fits the
standard buffer size, take a packet-with-buffer from the data pool
and re-anchor `_data`, `_tail`, `_end` inside its standard buffer;
else take a shell and `alloc_data`.  Both paths then `initialize()`
the handle. -/
def pool_allocate (m : Mem) (headroom length tailroom : Nat) : Mem × Nat :=
  let n := (headroom + length + tailroom) % U32
  if n ≤ POOL_BUFSIZ then
    let r := pool_data_allocate m
    let pk := r.1.getPkt r.2
    let pk := { pk with dataOff := headroom, tailOff := headroom + length,
                        endOff := POOL_BUFSIZ }
    (r.1.setPkt r.2 (pktInit pk), r.2)
  else
    let r := pool_allocate_shell m
    let m1 := alloc_data r.1 r.2 headroom length tailroom
    (m1.setPkt r.2 (pktInit (m1.getPkt r.2)), r.2)

/-- `WritablePacket::is_from_data_pool(p)` (packet.cc lines 523-536,
without netmap): no `_data_packet`, non-null `_head`, no destructor,
and a standard-size buffer (`_end - _head == CLICK_PACKET_POOL_BUFSIZ`). -/
def is_from_data_pool (m : Mem) (pid : Nat) : Bool :=
  let pk := m.getPkt pid
  pk.dataPacket.isNone && pk.bufId.isSome && !pk.hasDtor &&
    decide (pk.endOff = POOL_BUFSIZ)

/-- Free every element of a chain with `::operator delete` (the
discard loops of `check_pool_size`, packet.cc lines 486-491 and
497-501). -/
def freeChain (m : Mem) : List Nat → Mem
  | [] => m
  | q :: rest => freeChain (m.delPkt q) rest

/-- The spill action of `check_pool_size` for the shell freelist
(packet.cc lines 483-493): stamp the element count into the batch
head's `anno_u32(0)`, offer the whole chain to the global `pbatch`
ring, delete every element individually if the ring is full, and reset
the local freelist and count.  (The guard ensures the freelist is
nonempty; on an empty freelist the source would dereference null, so
the `[]` arm is unreachable.) -/
def spillP (m : Mem) : Mem :=
  match m.pool.p with
  | [] => m
  | q :: rest =>
      let m1 := m.setPkt q { m.getPkt q with anno := m.pool.pcount }
      let ins := mpmcInsert GLOBAL_COUNT m1.pbatch (some (q :: rest, m.pool.pcount))
      let m2 := if ins.2 then { m1 with pbatch := ins.1 }
                else freeChain { m1 with pbatch := ins.1 } (q :: rest)
      { m2 with pool := { m2.pool with p := [], pcount := 0 } }

/-- The spill action of `check_pool_size` for the data freelist
(packet.cc lines 494-504). -/
def spillPd (m : Mem) : Mem :=
  match m.pool.pd with
  | [] => m
  | q :: rest =>
      let m1 := m.setPkt q { m.getPkt q with anno := m.pool.pdcount }
      let ins := mpmcInsert GLOBAL_COUNT m1.pdbatch (some (q :: rest, m.pool.pdcount))
      let m2 := if ins.2 then { m1 with pdbatch := ins.1 }
                else freeChain { m1 with pdbatch := ins.1 } (q :: rest)
      { m2 with pool := { m2.pool with pd := [], pdcount := 0 } }

/-- `WritablePacket::check_pool_size(packet_pool, data)` (packet.cc
lines 480-521, HAVE_MULTITHREAD branch): when a freelist has reached
CLICK_PACKET_POOL_SIZE, hand the whole batch to the matching global
ring, deleting every element individually if the ring is full, and
reset the local freelist. -/
def check_pool_size (m : Mem) (data : Bool) : Mem :=
  if data = false ∧ m.pool.p ≠ [] ∧ POOL_SIZE ≤ m.pool.pcount then spillP m
  else if m.pool.pd ≠ [] ∧ POOL_SIZE ≤ m.pool.pdcount then spillPd m
  else m

/-- `Packet::~Packet()` (packet.cc lines 191-238, CLICK_USERLEVEL, no
netmap) for a packet whose `_data_packet` is null: run the foreign
destructor callback if one is set (releasing the foreign buffer), else
`delete[] _head` (no-op on a null head); finally `_head = _data = 0`. -/
def dtorOwner (m : Mem) (pid : Nat) : Mem :=
  let pk := m.getPkt pid
  let m1 := m.freeBuf pk.bufId
  m1.setPkt pid { pk with bufId := none, dataOff := 0 }

/-- `WritablePacket::recycle(p)` (packet.cc lines 541-562),
parameterized by the destructor used on the non-data path (the C++
recursion through `_data_packet->kill()` is bounded because an owner
never has `_data_packet` set; the embedding stratifies the two
levels). -/
def recycleWith (dtor : Mem → Nat → Mem) (m : Mem) (pid : Nat) : Mem :=
  let data := is_from_data_pool m pid
  let m1 := check_pool_size m data
  if data then
    { m1 with pool :=
        { m1.pool with pdcount := m1.pool.pdcount + 1, pd := pid :: m1.pool.pd } }
  else
    let m2 := dtor m1 pid
    { m2 with pool :=
        { m2.pool with pcount := m2.pool.pcount + 1, p := pid :: m2.pool.p } }

def recycleOwner (m : Mem) (pid : Nat) : Mem := recycleWith dtorOwner m pid

/-- Modelled from the spec (section 4.2 release): `Packet::kill()`
(packet.hh, not under src/) decrements `_use_count`; at zero the
packet goes to `WritablePacket::recycle`.  This is the owner-level
instance (`_data_packet` null). -/
def killOwner (m : Mem) (pid : Nat) : Mem :=
  let pk := m.getPkt pid
  if pk.useCount ≤ 1 then
    recycleOwner (m.setPkt pid { pk with useCount := 0 }) pid
  else
    m.setPkt pid { pk with useCount := pk.useCount - 1 }

/-- `Packet::~Packet()` (packet.cc lines 191-238): a sharer kills the
owner through `_data_packet->kill()`; an owner releases its buffer. -/
def dtorPacket (m : Mem) (pid : Nat) : Mem :=
  let pk := m.getPkt pid
  match pk.dataPacket with
  | some d =>
      let m1 := killOwner m d
      m1.setPkt pid { m1.getPkt pid with bufId := none, dataOff := 0 }
  | none => dtorOwner m pid

/-- `WritablePacket::recycle(p)` (packet.cc lines 541-562). -/
def recycle (m : Mem) (pid : Nat) : Mem := recycleWith dtorPacket m pid

/-- Modelled from the spec (section 4.2 release): `Packet::kill()`
(packet.hh, not under src/): decrement `_use_count`; at zero, recycle
the handle (whose destructor releases the buffer or detaches from and
kills the owner). -/
def kill (m : Mem) (pid : Nat) : Mem :=
  let pk := m.getPkt pid
  if pk.useCount ≤ 1 then
    recycle (m.setPkt pid { pk with useCount := 0 }) pid
  else
    m.setPkt pid { pk with useCount := pk.useCount - 1 }

/-- `Packet::clone()` (packet.cc lines 782-843, userlevel branch):
take a shell from the pool, resolve `origin` through `_data_packet`,
copy the whole Packet record (`memcpy(p, this, sizeof(Packet))`), then
`p->_use_count = 1; p->_data_packet = origin; p->_destructor = 0;
origin->_use_count++`. -/
def clone (m : Mem) (pid : Nat) : Mem × Option Nat :=
  let r := pool_allocate_shell m
  let px := r.1.getPkt pid
  let origin := px.dataPacket.getD pid
  let m1 := r.1.setPkt r.2 { px with useCount := 1, dataPacket := some origin,
                                     hasDtor := false }
  let og := m1.getPkt origin
  let m2 := m1.setPkt origin { og with useCount := og.useCount + 1 }
  (m2, some r.2)

/-- `Packet::make(headroom, data, length, tailroom)` (packet.cc lines
670-728, userlevel branch with HAVE_CLICK_PACKET_POOL): allocate
through the pool, then copy `data` (if non-null) to `data()`. -/
def make (m : Mem) (headroom : Nat) (data : Option (Nat → Nat))
    (length tailroom : Nat) : Mem × Option Nat :=
  let r := pool_allocate m headroom length tailroom
  let pk := r.1.getPkt r.2
  let m1 :=
    match data, pk.bufId with
    | some f, some b => r.1.copyToBuf b pk.dataOff f 0 length
    | _, _ => r.1
  (m1, some r.2)

/-- The implicit int32 -> uint32 conversion applied when
`expensive_uniqueify` passes its signed extra rooms to the unsigned
parameters of `pool_allocate`. -/
def toU32 (x : Int) : Nat := (x % (4294967296 : Int)).toNat

/-- `Packet::expensive_uniqueify(extra_headroom, extra_tailroom,
free_on_failure)` (packet.cc lines 948-1007, userlevel branch).  The
entry assertion `extra_headroom >= -headroom() && extra_tailroom >=
-tailroom()` is carried as a hypothesis by the theorems.  Allocation
through the pool cannot fail in the model (operator new throws rather
than returning null), so the failure branch (and `free_on_failure`)
is never taken.  Steps, in source order: allocate `p` via
`pool_allocate(extra_headroom, buffer_length(), extra_tailroom)`;
save `old_head`, `old_end`, `headroom()`, `length()` and `new_head =
p->_head`; if `_use_count > 1`, `memcpy(p, this, sizeof(Packet))` and
clear `p->_destructor`, else give the shell back (`p->_head = NULL;
p->_data_packet = NULL; recycle(p)`) and continue with `p = this`;
re-anchor `p`'s four pointers at `new_head`; copy
`[old_head + max(0,-eh), old_end + min(0,et))` to `p->_head +
max(0,eh)`; free the old data (`_data_packet->kill()`, or the
destructor callback, or `delete[] old_head`); clear `_destructor`;
set `p->_use_count = 1; p->_data_packet = 0`; shift `p`'s header
annotations by `extra_headroom`. -/
def expensive_uniqueify (m : Mem) (pid : Nat)
    (extra_headroom extra_tailroom : Int) (free_on_failure : Bool) :
    Mem × Option Nat :=
  let px := m.getPkt pid
  let buffer_length := px.endOff
  let r := pool_allocate m (toU32 extra_headroom) buffer_length
      (toU32 extra_tailroom)
  let old_head := px.bufId
  let old_endOff := px.endOff
  let headroom := px.dataOff
  let length := px.tailOff - px.dataOff
  let new_head := (r.1.getPkt r.2).bufId
  let step :=
    if 1 < px.useCount then
      ((r.1.setPkt r.2 { px with hasDtor := false }), r.2)
    else
      let m1 := r.1.setPkt r.2
        { r.1.getPkt r.2 with bufId := none, dataPacket := none }
      (recycle m1 r.2, pid)
  let q := step.2
  let qk := step.1.getPkt q
  let newDataOff := ((headroom : Int) + extra_headroom).toNat
  let m2 := step.1.setPkt q { qk with bufId := new_head, dataOff := newDataOff,
                                      tailOff := newDataOff + length,
                                      endOff := buffer_length }
  let srcStart := (if 0 ≤ extra_headroom then 0 else -extra_headroom).toNat
  let dstStart := (if 0 ≤ extra_headroom then extra_headroom else 0).toNat
  let copyLen := (((old_endOff : Int) +
      (if 0 ≤ extra_tailroom then 0 else extra_tailroom)).toNat) - srcStart
  let srcBytes :=
    match old_head with
    | some b => m2.byteAt b
    | none => fun _ => 0
  let m3 :=
    match new_head with
    | some nb => m2.copyToBuf nb dstStart srcBytes srcStart copyLen
    | none => m2
  let m4 :=
    match px.dataPacket with
    | some d => killOwner m3 d
    | none => m3.freeBuf old_head
  let m5 := m4.setPkt pid { m4.getPkt pid with hasDtor := false }
  let qk2 := m5.getPkt q
  let m6 := m5.setPkt q
      (shiftHdrs { qk2 with useCount := 1, dataPacket := none } extra_headroom)
  (m6, some q)

/-- `Packet::expensive_push(nbytes)` (packet.cc lines 1076-1102,
userlevel branch): `expensive_uniqueify((nbytes + 128) & ~3, 0, true)`
then `q->_data -= nbytes`. -/
def expensive_push (m : Mem) (pid : Nat) (nbytes : Nat) : Mem × Option Nat :=
  let eh := (nbytes + 128) - (nbytes + 128) % 4
  let r := expensive_uniqueify m pid (eh : Int) 0 true
  match r.2 with
  | some q =>
      let qk := r.1.getPkt q
      (r.1.setPkt q { qk with dataOff := qk.dataOff - nbytes }, some q)
  | none => (r.1, none)

/-- Modelled from the spec (section 4.2): `Packet::push(n)`
(packet.hh, not under src/): fast path when the headroom suffices and
the handle is not shared - pointer-only `_data -= n`; otherwise
`expensive_push(n)`. -/
def push (m : Mem) (pid : Nat) (n : Nat) : Mem × Option Nat :=
  let pk := m.getPkt pid
  if n ≤ pk.headroom ∧ pk.sharedB = false then
    (m.setPkt pid { pk with dataOff := pk.dataOff - n }, some pid)
  else
    expensive_push m pid n

/-- Modelled from the spec (section 4.2): `Packet::uniqueify()`
(packet.hh, not under src/): return self when not shared, else
`expensive_uniqueify(0, 0, true)`. -/
def uniqueify (m : Mem) (pid : Nat) : Mem × Option Nat :=
  if (m.getPkt pid).sharedB then expensive_uniqueify m pid 0 0 true
  else (m, some pid)

/-- `Packet::shift_data(offset, free_on_failure)` (packet.cc lines
1133-1185, userlevel branch).  `offset == 0` returns `this` at once.
Otherwise `dp` starts at `data()` and is lowered to each header
pointer that lies inside the buffer and precedes it (the transport
case assigns `network_header()`, packet.cc line 1154, transcribed
faithfully); if unshared and the room towards the move direction
suffices, `memmove` the range `[dp, end_data())` by `offset` and shift
`_data`, `_tail` and the header annotations; else fall back to
`expensive_uniqueify` with an alignment-adjusted headroom (the model
takes allocations 8-byte aligned, so `(uintptr_t)buffer() & 7 = 0` and
`(uintptr_t)(data() + offset) & 7 = (dataOff + offset) mod 8`). -/
def shift_data (m : Mem) (pid : Nat) (offset : Int) (free_on_failure : Bool) :
    Mem × Option Nat :=
  if offset = 0 then (m, some pid)
  else
    let pk := m.getPkt pid
    let dp : Int := pk.dataOff
    let dp := match pk.macOff with
      | some x => if 0 ≤ x ∧ x ≤ (pk.endOff : Int) ∧ x < dp then x else dp
      | none => dp
    let dp := match pk.netOff with
      | some x => if 0 ≤ x ∧ x ≤ (pk.endOff : Int) ∧ x < dp then x else dp
      | none => dp
    let dp := match pk.transOff with
      | some x => if 0 ≤ x ∧ x ≤ (pk.endOff : Int) ∧ x < dp
                  then pk.netOff.getD 0 else dp
      | none => dp
    if pk.sharedB = false ∧
        (if offset < 0 then -offset ≤ dp else offset ≤ (pk.tailroom : Int)) then
      let mlen := ((pk.tailOff : Int) - dp).toNat
      let m1 :=
        match pk.bufId with
        | some b =>
            match m.bufs b with
            | some bf =>
                let nbytes := copyBytes bf.bytes (dp + offset).toNat bf.bytes dp.toNat mlen
                m.setBuf b { bf with bytes := nbytes }
            | none => m
        | none => m
      let pk2 := { pk with
        dataOff := ((pk.dataOff : Int) + offset).toNat,
        tailOff := ((pk.tailOff : Int) + offset).toNat }
      (m1.setPkt pid (shiftHdrs pk2 offset), some pid)
    else
      let tailroom_offset : Int := if offset < 0 then -offset else 0
      let offset2 : Int :=
        if offset < 0 ∧ (pk.headroom : Int) < -offset then
          -(pk.headroom : Int) + ((pk.dataOff : Int) + offset) % 8
        else offset
      expensive_uniqueify m pid offset2 tailroom_offset free_on_failure

/-! ## Teardown (src/lib/packet.cc lines 1189-1231) -/

/-- Global state at teardown: the registry of thread pools
(`global_packet_pool.thread_pools`), the two global batch rings, and
the identifiers freed so far. -/
structure GState where
  pools : List PoolTL
  pbatch : RingS (Option (List Nat × Nat))
  pdbatch : RingS (Option (List Nat × Nat))
  freed : List Nat

/-- `cleanup_pool(pp, global)` (packet.cc lines 1189-1207): walk both
freelists, freeing every element with `::operator delete` and counting
them; the assert conditions are stated by `cleanupAssertLocal`. -/
def cleanup_pool (g : GState) (pp : PoolTL) : GState :=
  { g with freed := g.freed ++ pp.p ++ pp.pd }

/-- The assertion block of `cleanup_pool` for a thread pool (called
with `global = 0`): observed chain lengths are within
CLICK_PACKET_POOL_SIZE and equal the tracked `pcount` / `pdcount`. -/
def cleanupAssertLocal (pp : PoolTL) : Prop :=
  pp.p.length ≤ POOL_SIZE ∧ pp.pd.length ≤ POOL_SIZE ∧
  pp.p.length = pp.pcount ∧ pp.pd.length = pp.pdcount

/-- One iteration of the drain loop of `static_cleanup` (packet.cc
lines 1220-1226): `fake_pool.p = pbatch.extract(); fake_pool.pd =
pbatch.extract();` - BOTH reads are from `pbatch` (line 1223 reads
`pbatch`, not `pdbatch`); break when both are null, else clean the
fake pool.  The flag reports whether the loop continues. -/
def drainStep (g : GState) : GState × Bool :=
  let e1 := mpmcExtract none GLOBAL_COUNT g.pbatch
  let e2 := mpmcExtract none GLOBAL_COUNT e1.1
  let g1 := { g with pbatch := e2.1 }
  match e1.2, e2.2 with
  | none, none => (g1, false)
  | fp, fpd =>
      (cleanup_pool g1 ⟨(fp.getD ([], 0)).1, 0, (fpd.getD ([], 0)).1, 0⟩, true)

/-- The `do ... while(true)` drain loop, run on fuel; each continuing
iteration extracts at least one batch from `pbatch`, so `rdist pbatch
+ 1` rounds always reach the break. -/
def drainLoop : Nat → GState → GState
  | 0, g => g
  | fuel + 1, g =>
      let s := drainStep g
      if s.2 then drainLoop fuel s.1 else s.1

/-- `Packet::static_cleanup()` (packet.cc lines 1209-1231,
HAVE_CLICK_PACKET_POOL and HAVE_MULTITHREAD branch): pop every thread
pool off the registry and clean it, then run the drain loop on the
global rings. -/
def static_cleanup (g : GState) : GState :=
  let g1 := { (g.pools.foldl cleanup_pool g) with pools := [] }
  drainLoop (rdist g1.pbatch + 1) g1

/-! ## Claim theorems for the packet model -/

/-- C10: for every packet handle, shared or not,
`shift_data(0, free_on_failure)` returns the same handle and is a
complete no-op: the whole machine state - data and tail pointers,
buffer content, header annotations, use counts - is unchanged. -/
theorem c10_shift_data_zero (m : Mem) (pid : Nat) (fof : Bool) :
    shift_data m pid 0 fof = (m, some pid) := by
  simp [shift_data]

/-- Teardown state with one registered thread pool (shell 1, data
packet 2 in its freelists), an empty global shell-batch ring, and one
batch of data packets (5 and 6) in the global data-batch ring. -/
def c8_gstate : GState :=
  { pools := [⟨[1], 1, [2], 1⟩],
    pbatch := ⟨fun _ => none, 0, 0⟩,
    pdbatch := ⟨fun i => if i = 0 then some ([5, 6], 2) else none, 1, 0⟩,
    freed := [] }

/-- C8 (failing-input evaluation): `static_cleanup` frees the
thread-local freelists (packets 1 and 2) but leaves the data-buffer
batch sitting in the global `pdbatch` ring: the drain loop extracts
twice from `pbatch` (packet.cc lines 1222-1223) and never from
`pdbatch`, so packets 5 and 6 are never freed - contradicting the
claim that both global batch rings are emptied. -/
theorem c8_static_cleanup_eval :
    (static_cleanup c8_gstate).freed = [1, 2] ∧
    rdist (static_cleanup c8_gstate).pdbatch = 1 ∧
    (static_cleanup c8_gstate).pdbatch.ring 0 = some ([5, 6], 2) := by
  refine ⟨rfl, ?_, rfl⟩
  decide

/-- A shared buffer (identifier 0, standard size, filled with byte 5)
whose owner is handle 0 (`use_count = 2`) with one sharer, handle 1
(`_data_packet = 0`). -/
def c1_owner : Pkt :=
  { bufId := some 0, dataOff := 32, tailOff := 96, endOff := 2048,
    dataPacket := none, useCount := 2, hasDtor := false, anno := 0,
    macOff := none, netOff := none, transOff := none }

/-- The sharer handle of `c1_mem` (a clone of handle 0). -/
def c1_sharer : Pkt :=
  { bufId := some 0, dataOff := 32, tailOff := 96, endOff := 2048,
    dataPacket := some 0, useCount := 1, hasDtor := false, anno := 0,
    macOff := none, netOff := none, transOff := none }

def c1_mem : Mem :=
  { bufs := fun j => if j = 0 then some ⟨2048, fun _ => 5⟩ else none,
    nextBuf := 1,
    pkts := fun j =>
      if j = 0 then some c1_owner
      else if j = 1 then some c1_sharer
      else none,
    nextPkt := 2,
    pool := ⟨[], 0, [], 0⟩,
    pbatch := ⟨fun _ => none, 0, 0⟩,
    pdbatch := ⟨fun _ => none, 0, 0⟩,
    freed := [] }

/-- C1 (failing-input evaluation): calling `expensive_uniqueify(0, 0,
true)` on the OWNER of a shared buffer (handle 0, `use_count = 2`,
sharer handle 1 still attached) returns a fresh unique handle (id 2,
`use_count = 1`) as claimed, but it `delete[]`s the old buffer even
though the owner's count never reaches zero, and it leaves the
original owner's `use_count` at 2 instead of decrementing it: the
sharer now dangles.  This contradicts the claim that the owner's
count drops by exactly one and that the buffer is released only at
zero. -/
theorem c1_uniqueify_owner_eval :
    (expensive_uniqueify c1_mem 0 0 0 true).2 = some 2 ∧
    ((expensive_uniqueify c1_mem 0 0 0 true).1.getPkt 2).useCount = 1 ∧
    ((expensive_uniqueify c1_mem 0 0 0 true).1.bufs 0).isNone = true ∧
    ((expensive_uniqueify c1_mem 0 0 0 true).1.getPkt 0).useCount = 2 ∧
    ((expensive_uniqueify c1_mem 0 0 0 true).1.getPkt 1).dataPacket = some 0 := by
  refine ⟨rfl, ?_, ?_, ?_, ?_⟩ <;> decide

/-- The empty machine state (fresh process: empty pools, empty global
rings, no packets or buffers yet). -/
def emptyMem : Mem :=
  { bufs := fun _ => none, nextBuf := 0, pkts := fun _ => none, nextPkt := 0,
    pool := ⟨[], 0, [], 0⟩, pbatch := ⟨fun _ => none, 0, 0⟩,
    pdbatch := ⟨fun _ => none, 0, 0⟩, freed := [] }

/-- C5 scenario, step 1: `make(32, dat, 64, 32)` from the empty state
(the handle allocated is id 0, its standard pool buffer is id 0). -/
def c5_s1 (dat : Nat → Nat) : Mem × Option Nat :=
  make emptyMem 32 (some dat) 64 32

/-- C5 scenario, step 2: `push(20)`. -/
def c5_s2 (dat : Nat → Nat) : Mem × Option Nat :=
  push (c5_s1 dat).1 0 20

/-- C5 scenario, step 3: `push(64)`. -/
def c5_s3 (dat : Nat → Nat) : Mem × Option Nat :=
  push (c5_s2 dat).1 0 64

/-- The content of the handle's first buffer after `make`: `dat`
copied at offset headroom = 32 over fresh zero bytes. -/
def c5_bytes0 (dat : Nat → Nat) : Nat → Nat :=
  copyBytes (fun _ => 0) 32 dat 0 64



/-- Packet content used for the C5 scenario: 64 pairwise-distinct
bytes (value `i + 1` at offset `i`), so any misplacement of the copied
window would be visible byte-for-byte. -/
def c5_dat : Nat → Nat := fun i => i + 1

/-- C5: from a handle made with headroom 32, length 64, tailroom 32
(handle 0, standard pool buffer 0), `push(20)` succeeds in place
(headroom 32 >= 20): same handle, same buffer, no new buffer
allocated, length 84, data pointer moved back by 20.  The following
`push(64)` exceeds the remaining headroom of 12 and reallocates: the
handle moves to a fresh buffer (id 1), length becomes 148, and the 84
bytes following the 64 freshly reserved ones are byte-for-byte the
pre-push window (the data pointer having moved back by 64). -/
theorem c5_push_scenario :
    (c5_s1 c5_dat).2 = some 0 ∧
    ((c5_s1 c5_dat).1.getPkt 0).bufId = some 0 ∧
    ((c5_s1 c5_dat).1.getPkt 0).dataOff = 32 ∧
    ((c5_s1 c5_dat).1.getPkt 0).length = 64 ∧
    (∀ i, i < 64 → (c5_s1 c5_dat).1.byteAt 0 (32 + i) = c5_dat i) ∧
    (c5_s2 c5_dat).2 = some 0 ∧
    ((c5_s2 c5_dat).1.getPkt 0).bufId = some 0 ∧
    (c5_s2 c5_dat).1.nextBuf = (c5_s1 c5_dat).1.nextBuf ∧
    ((c5_s2 c5_dat).1.getPkt 0).dataOff = 12 ∧
    ((c5_s2 c5_dat).1.getPkt 0).length = 84 ∧
    (c5_s3 c5_dat).2 = some 0 ∧
    ((c5_s3 c5_dat).1.getPkt 0).bufId = some 1 ∧
    ((c5_s3 c5_dat).1.getPkt 0).dataOff = 140 ∧
    ((c5_s3 c5_dat).1.getPkt 0).length = 148 ∧
    (∀ i, i < 84 →
      (c5_s3 c5_dat).1.byteAt 1 (140 + 64 + i) =
      (c5_s2 c5_dat).1.byteAt 0 (12 + i)) := by
  decide!

/-! ### Frame lemmas for the state operations -/

@[simp] theorem setPkt_pool (m : Mem) (i : Nat) (pk : Pkt) :
    (m.setPkt i pk).pool = m.pool := rfl

@[simp] theorem setPkt_bufs (m : Mem) (i : Nat) (pk : Pkt) :
    (m.setPkt i pk).bufs = m.bufs := rfl

@[simp] theorem setPkt_pbatch (m : Mem) (i : Nat) (pk : Pkt) :
    (m.setPkt i pk).pbatch = m.pbatch := rfl

@[simp] theorem setPkt_pdbatch (m : Mem) (i : Nat) (pk : Pkt) :
    (m.setPkt i pk).pdbatch = m.pdbatch := rfl

@[simp] theorem setPkt_freed (m : Mem) (i : Nat) (pk : Pkt) :
    (m.setPkt i pk).freed = m.freed := rfl

@[simp] theorem setPkt_nextPkt (m : Mem) (i : Nat) (pk : Pkt) :
    (m.setPkt i pk).nextPkt = m.nextPkt := rfl

@[simp] theorem setPkt_nextBuf (m : Mem) (i : Nat) (pk : Pkt) :
    (m.setPkt i pk).nextBuf = m.nextBuf := rfl

@[simp] theorem getPkt_setPkt_same (m : Mem) (i : Nat) (pk : Pkt) :
    (m.setPkt i pk).getPkt i = pk := by
  simp [Mem.getPkt, Mem.setPkt]

theorem getPkt_setPkt_ne (m : Mem) (i j : Nat) (pk : Pkt) (h : j ≠ i) :
    (m.setPkt i pk).getPkt j = m.getPkt j := by
  simp [Mem.getPkt, Mem.setPkt, h]

theorem pkts_setPkt_ne (m : Mem) (i j : Nat) (pk : Pkt) (h : j ≠ i) :
    (m.setPkt i pk).pkts j = m.pkts j := by
  simp [Mem.setPkt, h]

@[simp] theorem delPkt_pool (m : Mem) (i : Nat) : (m.delPkt i).pool = m.pool := rfl

@[simp] theorem delPkt_bufs (m : Mem) (i : Nat) : (m.delPkt i).bufs = m.bufs := rfl

@[simp] theorem delPkt_pbatch (m : Mem) (i : Nat) :
    (m.delPkt i).pbatch = m.pbatch := rfl

@[simp] theorem delPkt_pdbatch (m : Mem) (i : Nat) :
    (m.delPkt i).pdbatch = m.pdbatch := rfl

@[simp] theorem delPkt_freed (m : Mem) (i : Nat) :
    (m.delPkt i).freed = m.freed ++ [i] := rfl

theorem freeChain_pool (l : List Nat) : ∀ m : Mem, (freeChain m l).pool = m.pool := by
  induction l with
  | nil => intro m; rfl
  | cons q rest ih => intro m; simp [freeChain, ih]

theorem freeChain_bufs (l : List Nat) : ∀ m : Mem, (freeChain m l).bufs = m.bufs := by
  induction l with
  | nil => intro m; rfl
  | cons q rest ih => intro m; simp [freeChain, ih]

theorem freeChain_pbatch (l : List Nat) : ∀ m : Mem,
    (freeChain m l).pbatch = m.pbatch := by
  induction l with
  | nil => intro m; rfl
  | cons q rest ih => intro m; simp [freeChain, ih]

theorem freeChain_pdbatch (l : List Nat) : ∀ m : Mem,
    (freeChain m l).pdbatch = m.pdbatch := by
  induction l with
  | nil => intro m; rfl
  | cons q rest ih => intro m; simp [freeChain, ih]

theorem freeChain_freed (l : List Nat) : ∀ m : Mem,
    (freeChain m l).freed = m.freed ++ l := by
  induction l with
  | nil => intro m; simp [freeChain]
  | cons q rest ih => intro m; simp [freeChain, ih]

theorem freeChain_pkts_ne (l : List Nat) : ∀ (m : Mem) (x : Nat), x ∉ l →
    (freeChain m l).pkts x = m.pkts x := by
  induction l with
  | nil => intro m x _; rfl
  | cons q rest ih =>
      intro m x hx
      simp only [List.mem_cons, not_or] at hx
      simp only [freeChain]
      rw [ih _ x hx.2]
      simp [Mem.delPkt, hx.1]

theorem mpmcInsert_full {T : Type} (N : Nat) (r : RingS T) (v : T)
    (h : rdist r = N) : mpmcInsert N r v = (r, false) := by
  simp [mpmcInsert, hasSpace, h]

theorem spillP_cons (m : Mem) (q : Nat) (rest : List Nat)
    (hp : m.pool.p = q :: rest) :
    spillP m =
      (let m1 := m.setPkt q { m.getPkt q with anno := m.pool.pcount }
       let ins := mpmcInsert GLOBAL_COUNT m1.pbatch (some (q :: rest, m.pool.pcount))
       let m2 := if ins.2 then { m1 with pbatch := ins.1 }
                 else freeChain { m1 with pbatch := ins.1 } (q :: rest)
       { m2 with pool := { m2.pool with p := [], pcount := 0 } }) := by
  unfold spillP
  rw [hp]

theorem spillPd_cons (m : Mem) (q : Nat) (rest : List Nat)
    (hpd : m.pool.pd = q :: rest) :
    spillPd m =
      (let m1 := m.setPkt q { m.getPkt q with anno := m.pool.pdcount }
       let ins := mpmcInsert GLOBAL_COUNT m1.pdbatch (some (q :: rest, m.pool.pdcount))
       let m2 := if ins.2 then { m1 with pdbatch := ins.1 }
                 else freeChain { m1 with pdbatch := ins.1 } (q :: rest)
       { m2 with pool := { m2.pool with pd := [], pdcount := 0 } }) := by
  unfold spillPd
  rw [hpd]

/-- C7: when the thread-local data freelist has reached the spill
threshold CLICK_PACKET_POOL_SIZE and the global exchange ring is full
(32 batches outstanding), the batch handed to the ring is rejected and
every element of it is freed individually (`::operator delete`), the
ring is left unchanged, and the release operation still completes
normally: the freed freelist is reset and the packet being recycled
becomes the sole element of the thread-local data freelist. -/
theorem c7_overflow_backpressure (m : Mem) (pid : Nat)
    (hdata : is_from_data_pool m pid = true)
    (hne : m.pool.pd ≠ [])
    (hcnt : POOL_SIZE ≤ m.pool.pdcount)
    (hfull : rdist m.pdbatch = GLOBAL_COUNT) :
    (recycle m pid).pool.pd = [pid] ∧
    (recycle m pid).pool.pdcount = 1 ∧
    (recycle m pid).freed = m.freed ++ m.pool.pd ∧
    (recycle m pid).pdbatch = m.pdbatch ∧
    (recycle m pid).bufs = m.bufs := by
  obtain ⟨q, rest, hpd⟩ : ∃ q rest, m.pool.pd = q :: rest := by
    cases h : m.pool.pd with
    | nil => exact absurd h hne
    | cons a l => exact ⟨a, l, rfl⟩
  simp only [recycle, recycleWith, hdata, if_true]
  have hguard1 : ¬ ((true : Bool) = false ∧ m.pool.p ≠ [] ∧
      POOL_SIZE ≤ m.pool.pcount) := by simp
  simp only [check_pool_size, hguard1, if_false]
  rw [if_pos ⟨hne, hcnt⟩]
  rw [spillPd_cons m q rest hpd]
  simp only [setPkt_pdbatch]
  rw [mpmcInsert_full GLOBAL_COUNT _ _ hfull]
  simp only [Bool.false_eq_true, if_false]
  simp only [freeChain_pool, freeChain_freed, freeChain_pdbatch,
    freeChain_bufs, setPkt_pool, setPkt_pdbatch, setPkt_freed, setPkt_bufs]
  simp [hpd]

/-- The empty global batch ring. -/
def ring0 : RingS (Option (List Nat × Nat)) := ⟨fun _ => none, 0, 0⟩

/-- A packet eligible for the data freelist (standard 2048-byte
buffer, no sharer link, no destructor). -/
def c7_pkt : Pkt :=
  { bufId := some 0, dataOff := 0, tailOff := 0, endOff := 2048,
    dataPacket := none, useCount := 1, hasDtor := false, anno := 0,
    macOff := none, netOff := none, transOff := none }

/-- A state whose data freelist is at the spill threshold (4096
entries) while the global data-batch ring is full (32 batches). -/
def c7_mem : Mem :=
  { bufs := fun j => if j = 0 then some ⟨2048, fun _ => 0⟩ else none,
    nextBuf := 1,
    pkts := fun j => if j = 0 then some c7_pkt else none,
    nextPkt := 1,
    pool := ⟨[], 0, List.replicate 4096 5, 4096⟩,
    pbatch := ring0,
    pdbatch := ⟨fun _ => some ([9], 1), 32, 0⟩,
    freed := [] }

/-- Witness for C7 on `c7_mem`. -/
theorem c7_overflow_backpressure_witness :
    (is_from_data_pool c7_mem 0 = true ∧ c7_mem.pool.pd ≠ [] ∧
      POOL_SIZE ≤ c7_mem.pool.pdcount ∧
      rdist c7_mem.pdbatch = GLOBAL_COUNT) ∧
    ((recycle c7_mem 0).pool.pd = [0] ∧
      (recycle c7_mem 0).pool.pdcount = 1 ∧
      (recycle c7_mem 0).freed = c7_mem.freed ++ c7_mem.pool.pd ∧
      (recycle c7_mem 0).pdbatch = c7_mem.pdbatch ∧
      (recycle c7_mem 0).bufs = c7_mem.bufs) :=
  ⟨⟨by decide!, by decide!, by decide!, by decide!⟩,
    c7_overflow_backpressure c7_mem 0 (by decide!) (by decide!)
      (by decide!) (by decide!)⟩

/-! ### C6: pool bounds along allocate/release sequences -/

/-- Well-formedness of a global batch ring: counters in uint32 range,
at most CLICK_GLOBAL_PACKET_POOL_COUNT batches outstanding, and every
stored batch carries its element count in the head anno slot with the
count bounded by the spill threshold. -/
def BatchWf (r : RingS (Option (List Nat × Nat))) : Prop :=
  r.head < U32 ∧ r.tail < U32 ∧ rdist r ≤ GLOBAL_COUNT ∧
  ∀ i l c, r.ring i = some (l, c) → c = l.length ∧ l.length ≤ POOL_SIZE

/-- Invariant of the pool state along allocate/release sequences: the
tracked counts agree with the freelist lengths and stay within
CLICK_PACKET_POOL_SIZE, both global rings are well formed, and no
packet in the store carries a `_data_packet` link (allocate/release
sequences never clone). -/
def PoolInv (m : Mem) : Prop :=
  m.pool.pcount = m.pool.p.length ∧ m.pool.pdcount = m.pool.pd.length ∧
  m.pool.pcount ≤ POOL_SIZE ∧ m.pool.pdcount ≤ POOL_SIZE ∧
  BatchWf m.pbatch ∧ BatchWf m.pdbatch ∧
  ∀ x, (m.getPkt x).dataPacket = none

theorem mpmcInsert_eq_ringInsert {T : Type} (N : Nat) (r : RingS T) (v : T) :
    mpmcInsert N r v = ringInsert N r v := rfl

theorem mpmcExtract_eq_ringExtract {T : Type} (z : T) (N : Nat) (r : RingS T) :
    mpmcExtract z N r = ringExtract z N r := rfl

theorem batchWf_insert (r : RingS (Option (List Nat × Nat))) (l : List Nat)
    (c : Nat) (hwf : BatchWf r) (hc : c = l.length) (hb : l.length ≤ POOL_SIZE) :
    BatchWf (mpmcInsert GLOBAL_COUNT r (some (l, c))).1 := by
  obtain ⟨h1, h2, h3, h4⟩ := hwf
  rw [mpmcInsert_eq_ringInsert]
  by_cases h : rdist r < GLOBAL_COUNT
  · have hd := rdist_insert GLOBAL_COUNT r (some (l, c)) h h1 h2 (by decide)
    rw [ringInsert_pos _ _ _ h] at hd ⊢
    refine ⟨?_, h2, ?_, ?_⟩
    · simp only [wrap, U32]
      omega
    · simp only at hd
      rw [hd]
      omega
    · intro i bl bc hi
      simp only at hi
      by_cases hih : i = r.head % GLOBAL_COUNT
      · rw [if_pos hih] at hi
        obtain ⟨rfl, rfl⟩ : l = bl ∧ c = bc := by
          injection hi with hi2
          injection hi2 with ha hb2
          exact ⟨ha, hb2⟩
        exact ⟨hc, hb⟩
      · rw [if_neg hih] at hi
        exact h4 i bl bc hi
  · rw [ringInsert_neg _ _ _ h]
    exact ⟨h1, h2, h3, h4⟩

theorem batchWf_extract (r : RingS (Option (List Nat × Nat))) (hwf : BatchWf r) :
    BatchWf (mpmcExtract none GLOBAL_COUNT r).1 ∧
    (∀ l c, (mpmcExtract none GLOBAL_COUNT r).2 = some (l, c) →
      c = l.length ∧ l.length ≤ POOL_SIZE) := by
  obtain ⟨h1, h2, h3, h4⟩ := hwf
  rw [mpmcExtract_eq_ringExtract]
  by_cases h : rdist r = 0
  · rw [ringExtract_zero _ _ _ h]
    exact ⟨⟨h1, h2, h3, h4⟩, by intro l c hc; cases hc⟩
  · have hd := rdist_extract none GLOBAL_COUNT r h h1 h2
    rw [ringExtract_pos _ _ _ h] at hd ⊢
    refine ⟨⟨h1, ?_, ?_, h4⟩, ?_⟩
    · simp only [wrap, U32]
      omega
    · simp only at hd
      rw [hd]
      omega
    · intro l c hc
      simp only at hc
      exact h4 _ l c hc

theorem getPkt_delPkt (m : Mem) (q x : Nat) :
    (m.delPkt q).getPkt x = if x = q then defaultPkt else m.getPkt x := by
  by_cases h : x = q
  · simp [Mem.delPkt, Mem.getPkt, h, defaultPkt]
  · simp [Mem.delPkt, Mem.getPkt, h]

theorem freeChain_noSharers (l : List Nat) : ∀ m : Mem,
    (∀ x, (m.getPkt x).dataPacket = none) →
    ∀ x, ((freeChain m l).getPkt x).dataPacket = none := by
  induction l with
  | nil => intro m h x; exact h x
  | cons q rest ih =>
      intro m h x
      simp only [freeChain]
      refine ih _ ?_ x
      intro y
      rw [getPkt_delPkt]
      by_cases hy : y = q
      · simp [hy, defaultPkt]
      · simp [hy, h y]

theorem setPkt_noSharers (m : Mem) (i : Nat) (pk : Pkt)
    (h : ∀ x, (m.getPkt x).dataPacket = none) (hpk : pk.dataPacket = none) :
    ∀ x, ((m.setPkt i pk).getPkt x).dataPacket = none := by
  intro x
  by_cases hx : x = i
  · subst hx
    simp [hpk]
  · rw [getPkt_setPkt_ne m i x pk hx]
    exact h x

theorem pair_snd_true {T A : Type} (r : T) (a b : A) :
    (if ((r, true) : T × Bool).2 = true then a else b) = a := rfl

theorem pair_snd_false {T A : Type} (r : T) (a b : A) :
    (if ((r, false) : T × Bool).2 = true then a else b) = b := rfl

theorem spillP_inv (m : Mem) (hI : PoolInv m) :
    PoolInv (spillP m) ∧ (spillP m).pool.p = [] ∧ (spillP m).pool.pcount = 0 ∧
    (spillP m).pool.pd = m.pool.pd ∧ (spillP m).pool.pdcount = m.pool.pdcount ∧
    (spillP m).pdbatch = m.pdbatch := by
  obtain ⟨hc1, hc2, hc3, hc4, hw1, hw2, hns⟩ := hI
  cases hpl : m.pool.p with
  | nil =>
      unfold spillP
      rw [hpl]
      exact ⟨⟨hc1, hc2, hc3, hc4, hw1, hw2, hns⟩, hpl,
        by simp [hc1, hpl], rfl, rfl, rfl⟩
  | cons q rest =>
      rw [spillP_cons m q rest hpl]
      simp only [setPkt_pbatch]
      have hcc : m.pool.pcount = (q :: rest).length := by rw [hc1, hpl]
      have hbb : (q :: rest).length ≤ POOL_SIZE := by omega
      have hwf := batchWf_insert m.pbatch (q :: rest) m.pool.pcount hw1 hcc hbb
      by_cases hs : rdist m.pbatch < GLOBAL_COUNT
      · rw [mpmcInsert_eq_ringInsert, ringInsert_pos _ _ _ hs] at hwf ⊢
        rw [pair_snd_true]
        exact ⟨⟨rfl, hc2, Nat.zero_le _, hc4, hwf, hw2, fun x =>
          setPkt_noSharers m q { m.getPkt q with anno := m.pool.pcount }
            hns (hns q) x⟩, trivial, trivial, rfl, rfl, rfl⟩
      · have h0 : rdist m.pbatch = GLOBAL_COUNT := by
          have := hw1.2.2.1
          omega
        rw [mpmcInsert_full GLOBAL_COUNT _ _ h0] at hwf ⊢
        rw [pair_snd_false]
        have h2 := setPkt_noSharers m q { m.getPkt q with anno := m.pool.pcount }
          hns (hns q)
        refine ⟨⟨?_, ?_, ?_, ?_, ?_, ?_, ?_⟩, ?_, trivial, ?_, ?_, ?_⟩
        · simp [freeChain_pool, setPkt_pool]
        · simp only [freeChain_pool, setPkt_pool]
          exact hc2
        · simp
        · simp only [freeChain_pool, setPkt_pool]
          exact hc4
        · simp only [freeChain_pbatch]
          exact hwf
        · simp only [freeChain_pdbatch]
          exact hw2
        · intro x
          exact freeChain_noSharers (q :: rest)
            { m.setPkt q { m.getPkt q with anno := m.pool.pcount } with
              pbatch := (m.pbatch, false).1 } h2 x
        · simp [freeChain_pool, setPkt_pool]
        · simp [freeChain_pool, setPkt_pool]
        · simp [freeChain_pool, setPkt_pool]
        · simp [freeChain_pdbatch]

theorem spillPd_inv (m : Mem) (hI : PoolInv m) :
    PoolInv (spillPd m) ∧ (spillPd m).pool.pd = [] ∧ (spillPd m).pool.pdcount = 0 ∧
    (spillPd m).pool.p = m.pool.p ∧ (spillPd m).pool.pcount = m.pool.pcount ∧
    (spillPd m).pbatch = m.pbatch := by
  obtain ⟨hc1, hc2, hc3, hc4, hw1, hw2, hns⟩ := hI
  cases hpl : m.pool.pd with
  | nil =>
      unfold spillPd
      rw [hpl]
      exact ⟨⟨hc1, hc2, hc3, hc4, hw1, hw2, hns⟩, hpl,
        by simp [hc2, hpl], rfl, rfl, rfl⟩
  | cons q rest =>
      rw [spillPd_cons m q rest hpl]
      simp only [setPkt_pdbatch]
      have hcc : m.pool.pdcount = (q :: rest).length := by rw [hc2, hpl]
      have hbb : (q :: rest).length ≤ POOL_SIZE := by omega
      have hwf := batchWf_insert m.pdbatch (q :: rest) m.pool.pdcount hw2 hcc hbb
      by_cases hs : rdist m.pdbatch < GLOBAL_COUNT
      · rw [mpmcInsert_eq_ringInsert, ringInsert_pos _ _ _ hs] at hwf ⊢
        rw [pair_snd_true]
        exact ⟨⟨hc1, rfl, hc3, Nat.zero_le _, hw1, hwf, fun x =>
          setPkt_noSharers m q { m.getPkt q with anno := m.pool.pdcount }
            hns (hns q) x⟩, trivial, trivial, rfl, rfl, rfl⟩
      · have h0 : rdist m.pdbatch = GLOBAL_COUNT := by
          have := hw2.2.2.1
          omega
        rw [mpmcInsert_full GLOBAL_COUNT _ _ h0] at hwf ⊢
        rw [pair_snd_false]
        have h2 := setPkt_noSharers m q { m.getPkt q with anno := m.pool.pdcount }
          hns (hns q)
        refine ⟨⟨?_, ?_, ?_, ?_, ?_, ?_, ?_⟩, ?_, trivial, ?_, ?_, ?_⟩
        · simp only [freeChain_pool, setPkt_pool]
          exact hc1
        · simp [freeChain_pool, setPkt_pool]
        · simp only [freeChain_pool, setPkt_pool]
          exact hc3
        · simp
        · simp only [freeChain_pbatch]
          exact hw1
        · simp only [freeChain_pdbatch]
          exact hwf
        · intro x
          exact freeChain_noSharers (q :: rest)
            { m.setPkt q { m.getPkt q with anno := m.pool.pdcount } with
              pdbatch := (m.pdbatch, false).1 } h2 x
        · simp [freeChain_pool, setPkt_pool]
        · simp [freeChain_pool, setPkt_pool]
        · simp [freeChain_pool, setPkt_pool]
        · simp [freeChain_pbatch]

theorem check_pool_size_inv (m : Mem) (data : Bool) (hI : PoolInv m) :
    PoolInv (check_pool_size m data) ∧
    (data = true → (check_pool_size m data).pool.pdcount < POOL_SIZE) ∧
    (data = false → (check_pool_size m data).pool.pcount < POOL_SIZE) := by
  unfold check_pool_size
  by_cases hg1 : data = false ∧ m.pool.p ≠ [] ∧ POOL_SIZE ≤ m.pool.pcount
  · rw [if_pos hg1]
    obtain ⟨hS, _, hcnt, _, hpdcnt, _⟩ := spillP_inv m hI
    refine ⟨hS, ?_, ?_⟩
    · intro hd
      rw [hg1.1] at hd
      cases hd
    · intro _
      rw [hcnt]
      decide
  · rw [if_neg hg1]
    by_cases hg2 : m.pool.pd ≠ [] ∧ POOL_SIZE ≤ m.pool.pdcount
    · rw [if_pos hg2]
      obtain ⟨hS, _, hcnt, _, hpcnt, _⟩ := spillPd_inv m hI
      refine ⟨hS, ?_, ?_⟩
      · intro _
        rw [hcnt]
        decide
      · intro hd
        subst hd
        rw [hpcnt]
        by_cases hp : m.pool.p = []
        · rw [hI.1, hp]
          decide
        · have : ¬ POOL_SIZE ≤ m.pool.pcount := fun h => hg1 ⟨rfl, hp, h⟩
          omega
    · rw [if_neg hg2]
      refine ⟨hI, ?_, ?_⟩
      · intro _
        by_cases hpd : m.pool.pd = []
        · rw [hI.2.1, hpd]
          decide
        · have : ¬ POOL_SIZE ≤ m.pool.pdcount := fun h => hg2 ⟨hpd, h⟩
          omega
      · intro hd
        subst hd
        by_cases hp : m.pool.p = []
        · rw [hI.1, hp]
          decide
        · have : ¬ POOL_SIZE ≤ m.pool.pcount := fun h => hg1 ⟨rfl, hp, h⟩
          omega

theorem freeBuf_pool (m : Mem) (ob : Option Nat) :
    (m.freeBuf ob).pool = m.pool := by
  cases ob <;> rfl

theorem freeBuf_pbatch (m : Mem) (ob : Option Nat) :
    (m.freeBuf ob).pbatch = m.pbatch := by
  cases ob <;> rfl

theorem freeBuf_pdbatch (m : Mem) (ob : Option Nat) :
    (m.freeBuf ob).pdbatch = m.pdbatch := by
  cases ob <;> rfl

theorem getPkt_freeBuf (m : Mem) (ob : Option Nat) (y : Nat) :
    (m.freeBuf ob).getPkt y = m.getPkt y := by
  cases ob <;> rfl

theorem setPkt_inv (m : Mem) (pid : Nat) (pk : Pkt) (hI : PoolInv m)
    (hpk : pk.dataPacket = none) : PoolInv (m.setPkt pid pk) := by
  obtain ⟨h1, h2, h3, h4, h5, h6, h7⟩ := hI
  exact ⟨h1, h2, h3, h4, h5, h6, setPkt_noSharers m pid pk h7 hpk⟩

theorem p_refill_inv (m : Mem) (hI : PoolInv m) : PoolInv (p_refill m) := by
  obtain ⟨h1, h2, h3, h4, h5, h6, h7⟩ := hI
  unfold p_refill
  by_cases he : m.pool.p.isEmpty = true
  · rw [if_pos he]
    obtain ⟨hwf, hbc⟩ := batchWf_extract m.pbatch h5
    cases hx : mpmcExtract none GLOBAL_COUNT m.pbatch with
    | mk r ob =>
        rw [hx] at hwf hbc
        cases ob with
        | none => exact ⟨h1, h2, h3, h4, hwf, h6, h7⟩
        | some bc =>
            obtain ⟨hc, hb⟩ := hbc bc.1 bc.2 rfl
            refine ⟨hc, h2, ?_, h4, hwf, h6, h7⟩
            show bc.2 ≤ POOL_SIZE
            omega
  · rw [if_neg he]
    exact ⟨h1, h2, h3, h4, h5, h6, h7⟩

theorem pd_refill_inv (m : Mem) (hI : PoolInv m) : PoolInv (pd_refill m) := by
  obtain ⟨h1, h2, h3, h4, h5, h6, h7⟩ := hI
  unfold pd_refill
  by_cases he : m.pool.pd.isEmpty = true
  · rw [if_pos he]
    obtain ⟨hwf, hbc⟩ := batchWf_extract m.pdbatch h6
    cases hx : mpmcExtract none GLOBAL_COUNT m.pdbatch with
    | mk r ob =>
        rw [hx] at hwf hbc
        cases ob with
        | none => exact ⟨h1, h2, h3, h4, h5, hwf, h7⟩
        | some bc =>
            obtain ⟨hc, hb⟩ := hbc bc.1 bc.2 rfl
            refine ⟨h1, hc, h3, ?_, h5, hwf, h7⟩
            show bc.2 ≤ POOL_SIZE
            omega
  · rw [if_neg he]
    exact ⟨h1, h2, h3, h4, h5, h6, h7⟩

theorem getPkt_alloc_data_dp (m : Mem) (pid hr ln tl x : Nat) :
    ((alloc_data m pid hr ln tl).getPkt x).dataPacket =
      (m.getPkt x).dataPacket := by
  unfold alloc_data Mem.setPkt Mem.getPkt
  by_cases hx : x = pid
  · subst hx
    simp
  · simp [hx]

theorem alloc_data_inv (m : Mem) (pid hr ln tl : Nat) (hI : PoolInv m) :
    PoolInv (alloc_data m pid hr ln tl) := by
  obtain ⟨h1, h2, h3, h4, h5, h6, h7⟩ := hI
  refine ⟨h1, h2, h3, h4, h5, h6, ?_⟩
  intro x
  rw [getPkt_alloc_data_dp]
  exact h7 x

theorem p_take_inv (m1 : Mem) (hI : PoolInv m1) : PoolInv (p_take m1).1 := by
  obtain ⟨h1, h2, h3, h4, h5, h6, h7⟩ := hI
  unfold p_take
  cases hx : m1.pool.p with
  | cons q rest =>
      refine ⟨?_, h2, ?_, h4, h5, h6, h7⟩
      · show m1.pool.pcount - 1 = rest.length
        rw [h1, hx]
        simp
      · show m1.pool.pcount - 1 ≤ POOL_SIZE
        omega
  | nil =>
      refine ⟨h1, h2, h3, h4, h5, h6, ?_⟩
      intro x
      by_cases hxp : x = m1.nextPkt
      · subst hxp
        simp [Mem.getPkt, defaultPkt]
      · show ((if x = m1.nextPkt then some defaultPkt else m1.pkts x).getD
          defaultPkt).dataPacket = none
        rw [if_neg hxp]
        exact h7 x

theorem pd_take_inv (m1 : Mem) (hI : PoolInv m1) : PoolInv (pd_take m1).1 := by
  obtain ⟨h1, h2, h3, h4, h5, h6, h7⟩ := hI
  unfold pd_take
  cases hx : m1.pool.pd with
  | cons q rest =>
      refine ⟨h1, ?_, h3, ?_, h5, h6, h7⟩
      · show m1.pool.pdcount - 1 = rest.length
        rw [h2, hx]
        simp
      · show m1.pool.pdcount - 1 ≤ POOL_SIZE
        omega
  | nil =>
      apply alloc_data_inv
      refine ⟨h1, h2, h3, h4, h5, h6, ?_⟩
      intro x
      by_cases hxp : x = m1.nextPkt
      · subst hxp
        simp [Mem.getPkt, defaultPkt]
      · show ((if x = m1.nextPkt then some defaultPkt else m1.pkts x).getD
          defaultPkt).dataPacket = none
        rw [if_neg hxp]
        exact h7 x

theorem pool_allocate_inv (m : Mem) (hr ln tl : Nat) (hI : PoolInv m) :
    PoolInv (pool_allocate m hr ln tl).1 := by
  simp only [pool_allocate]
  by_cases hn : (hr + ln + tl) % U32 ≤ POOL_BUFSIZ
  · rw [if_pos hn]
    have hPD : PoolInv (pool_data_allocate m).1 :=
      pd_take_inv (pd_refill m) (pd_refill_inv m hI)
    exact setPkt_inv _ _ _ hPD rfl
  · rw [if_neg hn]
    have hSH : PoolInv (pool_allocate_shell m).1 :=
      p_take_inv (p_refill m) (p_refill_inv m hI)
    exact setPkt_inv _ _ _ (alloc_data_inv _ _ _ _ _ hSH) rfl

theorem copyToBuf_inv (m : Mem) (b dOff : Nat) (src : Nat → Nat) (sOff n : Nat)
    (hI : PoolInv m) : PoolInv (m.copyToBuf b dOff src sOff n) := by
  obtain ⟨h1, h2, h3, h4, h5, h6, h7⟩ := hI
  unfold Mem.copyToBuf
  cases hx : m.bufs b with
  | none => exact ⟨h1, h2, h3, h4, h5, h6, h7⟩
  | some bf => exact ⟨h1, h2, h3, h4, h5, h6, h7⟩

theorem make_inv (m : Mem) (hr : Nat) (dat : Option (Nat → Nat)) (ln tl : Nat)
    (hI : PoolInv m) : PoolInv (make m hr dat ln tl).1 := by
  have hPA := pool_allocate_inv m hr ln tl hI
  simp only [make]
  cases dat with
  | none => exact hPA
  | some f =>
      cases hb : ((pool_allocate m hr ln tl).1.getPkt
          (pool_allocate m hr ln tl).2).bufId with
      | none => exact hPA
      | some b => exact copyToBuf_inv _ _ _ _ _ _ hPA

theorem dtorOwner_pool (m : Mem) (pid : Nat) :
    (dtorOwner m pid).pool = m.pool := by
  simp only [dtorOwner, setPkt_pool, freeBuf_pool]

theorem dtorOwner_pbatch (m : Mem) (pid : Nat) :
    (dtorOwner m pid).pbatch = m.pbatch := by
  simp only [dtorOwner, setPkt_pbatch, freeBuf_pbatch]

theorem dtorOwner_pdbatch (m : Mem) (pid : Nat) :
    (dtorOwner m pid).pdbatch = m.pdbatch := by
  simp only [dtorOwner, setPkt_pdbatch, freeBuf_pdbatch]

theorem dtorOwner_noSharers (m : Mem) (pid : Nat)
    (h : ∀ x, (m.getPkt x).dataPacket = none) :
    ∀ x, ((dtorOwner m pid).getPkt x).dataPacket = none := by
  intro x
  simp only [dtorOwner]
  apply setPkt_noSharers
  · intro y
    rw [getPkt_freeBuf]
    exact h y
  · exact h pid

theorem dtorPacket_eq_owner (m : Mem) (pid : Nat)
    (h : (m.getPkt pid).dataPacket = none) :
    dtorPacket m pid = dtorOwner m pid := by
  unfold dtorPacket
  simp only [h]

theorem recycle_inv (m : Mem) (pid : Nat) (hI : PoolInv m) :
    PoolInv (recycle m pid) := by
  by_cases hd : is_from_data_pool m pid = true
  · simp only [recycle, recycleWith, hd]
    obtain ⟨⟨g1, g2, g3, g4, g5, g6, g7⟩, hT, _⟩ := check_pool_size_inv m true hI
    refine ⟨g1, ?_, g3, ?_, g5, g6, g7⟩
    · show (check_pool_size m true).pool.pdcount + 1 =
        (pid :: (check_pool_size m true).pool.pd).length
      rw [g2]
      simp
    · show (check_pool_size m true).pool.pdcount + 1 ≤ POOL_SIZE
      have := hT rfl
      omega
  · have hd2 : is_from_data_pool m pid = false := by
      cases h : is_from_data_pool m pid
      · rfl
      · exact absurd h hd
    simp only [recycle, recycleWith, hd2]
    obtain ⟨⟨g1, g2, g3, g4, g5, g6, g7⟩, _, hF⟩ := check_pool_size_inv m false hI
    rw [dtorPacket_eq_owner _ pid (g7 pid)]
    refine ⟨?_, ?_, ?_, ?_, ?_, ?_, ?_⟩
    · show (dtorOwner (check_pool_size m false) pid).pool.pcount + 1 =
        (pid :: (dtorOwner (check_pool_size m false) pid).pool.p).length
      rw [dtorOwner_pool, g1]
      simp
    · show (dtorOwner (check_pool_size m false) pid).pool.pdcount =
        (dtorOwner (check_pool_size m false) pid).pool.pd.length
      rw [dtorOwner_pool]
      exact g2
    · show (dtorOwner (check_pool_size m false) pid).pool.pcount + 1 ≤ POOL_SIZE
      rw [dtorOwner_pool]
      have := hF rfl
      omega
    · show (dtorOwner (check_pool_size m false) pid).pool.pdcount ≤ POOL_SIZE
      rw [dtorOwner_pool]
      exact g4
    · show BatchWf (dtorOwner (check_pool_size m false) pid).pbatch
      rw [dtorOwner_pbatch]
      exact g5
    · show BatchWf (dtorOwner (check_pool_size m false) pid).pdbatch
      rw [dtorOwner_pdbatch]
      exact g6
    · exact dtorOwner_noSharers _ pid g7

theorem kill_inv (m : Mem) (pid : Nat) (hI : PoolInv m) : PoolInv (kill m pid) := by
  have hns := hI.2.2.2.2.2.2
  simp only [kill]
  by_cases hu : (m.getPkt pid).useCount ≤ 1
  · rw [if_pos hu]
    exact recycle_inv _ pid (setPkt_inv m pid _ hI (hns pid))
  · rw [if_neg hu]
    exact setPkt_inv m pid _ hI (hns pid)

theorem batchWf_ring0 : BatchWf ⟨fun _ => none, 0, 0⟩ := by
  refine ⟨?_, ?_, ?_, ?_⟩
  · show (0 : Nat) < 4294967296
    omega
  · show (0 : Nat) < 4294967296
    omega
  · show (0 + 4294967296 - 0) % 4294967296 ≤ 32
    omega
  · intro i l c h
    exact Option.noConfusion h

theorem poolInv_empty : PoolInv emptyMem :=
  ⟨rfl, rfl, Nat.zero_le _, Nat.zero_le _, batchWf_ring0, batchWf_ring0,
    fun _ => rfl⟩

/-- A single-thread allocate/release trace: each step either obtains a
fresh handle from `Packet::make` (through the pools) or releases a
handle with `Packet::kill` (through `WritablePacket::recycle`). -/
inductive POp where
  | alloc (headroom length tailroom : Nat)
  | free (pid : Nat)

def stepOp (m : Mem) : POp → Mem
  | POp.alloc h l t => (make m h none l t).1
  | POp.free pid => kill m pid

/-- The state after running an allocate/release trace from start-up. -/
def runOps (ops : List POp) : Mem := ops.foldl stepOp emptyMem

theorem stepOp_inv (m : Mem) (op : POp) (hI : PoolInv m) :
    PoolInv (stepOp m op) := by
  cases op with
  | alloc h l t => exact make_inv m h none l t hI
  | free pid => exact kill_inv m pid hI

theorem foldl_inv (ops : List POp) : ∀ m : Mem, PoolInv m →
    PoolInv (ops.foldl stepOp m) := by
  induction ops with
  | nil => intro m h; exact h
  | cons op rest ih => intro m h; exact ih _ (stepOp_inv m op h)

/-- C6: along every single-thread allocate/release trace (every
`Packet::make` / `Packet::kill` sequence run from start-up), the
thread-local freelist counts `pcount` and `pdcount` never exceed
CLICK_PACKET_POOL_SIZE, and neither global exchange ring ever holds
more than CLICK_GLOBAL_PACKET_POOL_COUNT batches.  Since every prefix
of a trace is itself a trace, this bounds the state after each
operation, in particular after each release. -/
theorem c6_pool_bounds (ops : List POp) :
    (runOps ops).pool.pcount ≤ POOL_SIZE ∧
    (runOps ops).pool.pdcount ≤ POOL_SIZE ∧
    rdist (runOps ops).pbatch ≤ GLOBAL_COUNT ∧
    rdist (runOps ops).pdbatch ≤ GLOBAL_COUNT := by
  obtain ⟨-, -, h3, h4, hw1, hw2, -⟩ := foldl_inv ops emptyMem poolInv_empty
  exact ⟨h3, h4, hw1.2.2.1, hw2.2.2.1⟩

theorem p_refill_pkts (m : Mem) : (p_refill m).pkts = m.pkts := by
  unfold p_refill
  by_cases he : m.pool.p.isEmpty = true
  · rw [if_pos he]
    cases hx : mpmcExtract none GLOBAL_COUNT m.pbatch with
    | mk r ob => cases ob <;> rfl
  · rw [if_neg he]

theorem p_refill_bufs (m : Mem) : (p_refill m).bufs = m.bufs := by
  unfold p_refill
  by_cases he : m.pool.p.isEmpty = true
  · rw [if_pos he]
    cases hx : mpmcExtract none GLOBAL_COUNT m.pbatch with
    | mk r ob => cases ob <;> rfl
  · rw [if_neg he]

theorem p_refill_pd (m : Mem) : (p_refill m).pool.pd = m.pool.pd := by
  unfold p_refill
  by_cases he : m.pool.p.isEmpty = true
  · rw [if_pos he]
    cases hx : mpmcExtract none GLOBAL_COUNT m.pbatch with
    | mk r ob => cases ob <;> rfl
  · rw [if_neg he]

theorem p_refill_pdcount (m : Mem) : (p_refill m).pool.pdcount = m.pool.pdcount := by
  unfold p_refill
  by_cases he : m.pool.p.isEmpty = true
  · rw [if_pos he]
    cases hx : mpmcExtract none GLOBAL_COUNT m.pbatch with
    | mk r ob => cases ob <;> rfl
  · rw [if_neg he]

theorem p_refill_pcount_le (m : Mem) (hW : BatchWf m.pbatch)
    (hpc : m.pool.pcount ≤ POOL_SIZE) :
    (p_refill m).pool.pcount ≤ POOL_SIZE := by
  unfold p_refill
  by_cases he : m.pool.p.isEmpty = true
  · rw [if_pos he]
    obtain ⟨hwf, hbc⟩ := batchWf_extract m.pbatch hW
    cases hx : mpmcExtract none GLOBAL_COUNT m.pbatch with
    | mk r ob =>
        rw [hx] at hbc
        cases ob with
        | none => exact hpc
        | some bc =>
            obtain ⟨hc, hb⟩ := hbc bc.1 bc.2 rfl
            show bc.2 ≤ POOL_SIZE
            omega
  · rw [if_neg he]
    exact hpc

theorem p_take_pkts_ne (m1 : Mem) (x : Nat) :
    x ≠ (p_take m1).2 → (p_take m1).1.pkts x = m1.pkts x := by
  unfold p_take
  cases hp : m1.pool.p with
  | cons q rest => intro _; rfl
  | nil =>
      intro hx
      show (if x = m1.nextPkt then some defaultPkt else m1.pkts x) = m1.pkts x
      rw [if_neg hx]

theorem p_take_bufs (m1 : Mem) : (p_take m1).1.bufs = m1.bufs := by
  unfold p_take
  cases hp : m1.pool.p <;> rfl

theorem p_take_pd (m1 : Mem) : (p_take m1).1.pool.pd = m1.pool.pd := by
  unfold p_take
  cases hp : m1.pool.p <;> rfl

theorem p_take_pdcount (m1 : Mem) : (p_take m1).1.pool.pdcount = m1.pool.pdcount := by
  unfold p_take
  cases hp : m1.pool.p <;> rfl

theorem shell_getPkt_ne (m : Mem) (x : Nat)
    (hx : x ≠ (pool_allocate_shell m).2) :
    (pool_allocate_shell m).1.getPkt x = m.getPkt x := by
  have h := p_take_pkts_ne (p_refill m) x hx
  show ((p_take (p_refill m)).1.pkts x).getD defaultPkt =
    (m.pkts x).getD defaultPkt
  rw [h, p_refill_pkts]

theorem shell_bufs (m : Mem) : (pool_allocate_shell m).1.bufs = m.bufs := by
  show (p_take (p_refill m)).1.bufs = m.bufs
  rw [p_take_bufs, p_refill_bufs]

theorem shell_pd (m : Mem) : (pool_allocate_shell m).1.pool.pd = m.pool.pd := by
  show (p_take (p_refill m)).1.pool.pd = m.pool.pd
  rw [p_take_pd, p_refill_pd]

theorem shell_pdcount (m : Mem) :
    (pool_allocate_shell m).1.pool.pdcount = m.pool.pdcount := by
  show (p_take (p_refill m)).1.pool.pdcount = m.pool.pdcount
  rw [p_take_pdcount, p_refill_pdcount]

theorem shell_guard (m : Mem) (hW : BatchWf m.pbatch)
    (hpc : m.pool.pcount ≤ POOL_SIZE) :
    (pool_allocate_shell m).1.pool.p = [] ∨
    (pool_allocate_shell m).1.pool.pcount < POOL_SIZE := by
  have hR := p_refill_pcount_le m hW hpc
  show (p_take (p_refill m)).1.pool.p = [] ∨
    (p_take (p_refill m)).1.pool.pcount < POOL_SIZE
  unfold p_take
  cases hp : (p_refill m).pool.p with
  | nil =>
      left
      exact hp
  | cons q rest =>
      right
      show (p_refill m).pool.pcount - 1 < POOL_SIZE
      have h4 : POOL_SIZE = 4096 := rfl
      omega

theorem getPkt_poolset (m : Mem) (P : PoolTL) (x : Nat) :
    ({ m with pool := P } : Mem).getPkt x = m.getPkt x := rfl

theorem bufs_poolset (m : Mem) (P : PoolTL) :
    ({ m with pool := P } : Mem).bufs = m.bufs := rfl

/-- The clone/release contract stated by the spec: the fresh handle
returned by `clone()` has `use_count` 1, links to the resolved owner,
and copies the annotation word, the three header offsets and the
data/tail window anchors; `clone()` bumps the owner's `use_count` by
exactly one; killing the clone restores the owner's `use_count`,
leaves every buffer byte untouched, and leaves the original handle's
window anchors unchanged. -/
def cloneKillSpec (m : Mem) (pid origin cid : Nat) (m1 m2 : Mem) : Prop :=
  (m1.getPkt cid).useCount = 1 ∧
  (m1.getPkt cid).dataPacket = some origin ∧
  (m1.getPkt cid).anno = (m.getPkt pid).anno ∧
  (m1.getPkt cid).macOff = (m.getPkt pid).macOff ∧
  (m1.getPkt cid).netOff = (m.getPkt pid).netOff ∧
  (m1.getPkt cid).transOff = (m.getPkt pid).transOff ∧
  (m1.getPkt cid).bufId = (m.getPkt pid).bufId ∧
  (m1.getPkt cid).dataOff = (m.getPkt pid).dataOff ∧
  (m1.getPkt cid).tailOff = (m.getPkt pid).tailOff ∧
  (m1.getPkt origin).useCount = (m.getPkt origin).useCount + 1 ∧
  (m2.getPkt origin).useCount = (m.getPkt origin).useCount ∧
  m2.bufs = m.bufs ∧
  (m2.getPkt pid).bufId = (m.getPkt pid).bufId ∧
  (m2.getPkt pid).dataOff = (m.getPkt pid).dataOff ∧
  (m2.getPkt pid).tailOff = (m.getPkt pid).tailOff

/-- C2: for every handle `pid` whose resolved owner is `origin`
(owner of at least one reference), `clone()` returns a fresh handle
`cid` with `use_count` 1 that copies the annotation, header offsets
and window anchors and links to `origin`, incrementing the owner's
`use_count` by exactly one; then `kill()` on the clone restores the
owner's `use_count` to its pre-clone value and leaves the original
handle's buffer, content and window anchors unchanged.  (The pool
hypotheses keep `recycle`'s spill below threshold; the freshness
hypotheses say the shell taken from the pool is neither the handle
nor its owner.) -/
theorem c2_clone_then_kill (m : Mem) (pid origin cid : Nat) (m1 m2 : Mem)
    (horigin : origin = ((m.getPkt pid).dataPacket).getD pid)
    (hclone : clone m pid = (m1, some cid))
    (hm2 : m2 = kill m1 cid)
    (hW : BatchWf m.pbatch)
    (hpc : m.pool.pcount ≤ POOL_SIZE)
    (hpdc : m.pool.pdcount < POOL_SIZE)
    (hne1 : cid ≠ pid) (hne2 : cid ≠ origin)
    (huse : 1 ≤ (m.getPkt origin).useCount) :
    cloneKillSpec m pid origin cid m1 m2 := by
  have hcid : (pool_allocate_shell m).2 = cid :=
    Option.some.inj (congrArg Prod.snd hclone)
  have hm1 : (clone m pid).1 = m1 := congrArg Prod.fst hclone
  subst hm1
  subst hm2
  subst hcid
  have hpidne : pid ≠ (pool_allocate_shell m).2 := fun h => hne1 h.symm
  have horigne : origin ≠ (pool_allocate_shell m).2 := fun h => hne2 h.symm
  have hpx : (pool_allocate_shell m).1.getPkt pid = m.getPkt pid :=
    shell_getPkt_ne m pid hpidne
  have hgorig : (pool_allocate_shell m).1.getPkt origin = m.getPkt origin :=
    shell_getPkt_ne m origin horigne
  have hORG : ((pool_allocate_shell m).1.getPkt pid).dataPacket.getD pid
      = origin := by
    rw [hpx]
    exact horigin.symm
  have h1c : (clone m pid).1.getPkt (pool_allocate_shell m).2 =
      { m.getPkt pid with
          useCount := 1, dataPacket := some origin, hasDtor := false } := by
    simp only [clone]
    rw [hORG]
    rw [getPkt_setPkt_ne _ _ _ _ hne2]
    rw [getPkt_setPkt_same]
    rw [hpx]
  have h1o : (clone m pid).1.getPkt origin =
      { m.getPkt origin with useCount := (m.getPkt origin).useCount + 1 } := by
    simp only [clone]
    rw [hORG]
    rw [getPkt_setPkt_same]
    rw [getPkt_setPkt_ne _ _ _ _ horigne]
    rw [hgorig]
  have h1pid : pid ≠ origin → (clone m pid).1.getPkt pid = m.getPkt pid := by
    intro hpo
    simp only [clone]
    rw [hORG]
    rw [getPkt_setPkt_ne _ _ _ _ hpo]
    rw [getPkt_setPkt_ne _ _ _ _ hpidne]
    exact hpx
  have h1pool : (clone m pid).1.pool = (pool_allocate_shell m).1.pool := by
    simp only [clone, setPkt_pool]
  have h1bufs : (clone m pid).1.bufs = m.bufs := by
    simp only [clone, setPkt_bufs]
    exact shell_bufs m
  have hcond : ((clone m pid).1.getPkt (pool_allocate_shell m).2).useCount
      ≤ 1 := by
    rw [h1c]
  have hkill : kill (clone m pid).1 (pool_allocate_shell m).2 =
      recycle ((clone m pid).1.setPkt (pool_allocate_shell m).2
        { (clone m pid).1.getPkt (pool_allocate_shell m).2 with
          useCount := 0 }) (pool_allocate_shell m).2 := by
    simp only [kill]
    rw [if_pos hcond]
  have hM3dp : (((clone m pid).1.setPkt (pool_allocate_shell m).2
      { (clone m pid).1.getPkt (pool_allocate_shell m).2 with
        useCount := 0 }).getPkt (pool_allocate_shell m).2).dataPacket
      = some origin := by
    rw [getPkt_setPkt_same]
    show ((clone m pid).1.getPkt (pool_allocate_shell m).2).dataPacket
      = some origin
    rw [h1c]
  have hM3o : (((clone m pid).1.setPkt (pool_allocate_shell m).2
      { (clone m pid).1.getPkt (pool_allocate_shell m).2 with
        useCount := 0 }).getPkt origin) =
      { m.getPkt origin with useCount := (m.getPkt origin).useCount + 1 } := by
    rw [getPkt_setPkt_ne _ _ _ _ horigne]
    exact h1o
  have hdata : is_from_data_pool ((clone m pid).1.setPkt
      (pool_allocate_shell m).2
      { (clone m pid).1.getPkt (pool_allocate_shell m).2 with
        useCount := 0 }) (pool_allocate_shell m).2 = false := by
    simp [is_from_data_pool, h1c]
  have hM3pool : (((clone m pid).1.setPkt (pool_allocate_shell m).2
      { (clone m pid).1.getPkt (pool_allocate_shell m).2 with
        useCount := 0 })).pool = (pool_allocate_shell m).1.pool := by
    rw [setPkt_pool, h1pool]
  have hg1 : ¬((false : Bool) = false ∧
      (((clone m pid).1.setPkt (pool_allocate_shell m).2
        { (clone m pid).1.getPkt (pool_allocate_shell m).2 with
          useCount := 0 })).pool.p ≠ [] ∧
      POOL_SIZE ≤ (((clone m pid).1.setPkt (pool_allocate_shell m).2
        { (clone m pid).1.getPkt (pool_allocate_shell m).2 with
          useCount := 0 })).pool.pcount) := by
    rcases shell_guard m hW hpc with h | h
    · rintro ⟨-, hne, -⟩
      exact hne (by rw [hM3pool, h])
    · rintro ⟨-, -, hle⟩
      rw [hM3pool] at hle
      omega
  have hg2 : ¬((((clone m pid).1.setPkt (pool_allocate_shell m).2
      { (clone m pid).1.getPkt (pool_allocate_shell m).2 with
        useCount := 0 })).pool.pd ≠ [] ∧
      POOL_SIZE ≤ (((clone m pid).1.setPkt (pool_allocate_shell m).2
        { (clone m pid).1.getPkt (pool_allocate_shell m).2 with
          useCount := 0 })).pool.pdcount) := by
    rintro ⟨-, hle⟩
    rw [hM3pool, shell_pdcount] at hle
    omega
  have hchk : check_pool_size ((clone m pid).1.setPkt
      (pool_allocate_shell m).2
      { (clone m pid).1.getPkt (pool_allocate_shell m).2 with
        useCount := 0 }) false =
      ((clone m pid).1.setPkt (pool_allocate_shell m).2
      { (clone m pid).1.getPkt (pool_allocate_shell m).2 with
        useCount := 0 }) := by
    unfold check_pool_size
    rw [if_neg hg1, if_neg hg2]
  have hdtor : dtorPacket ((clone m pid).1.setPkt (pool_allocate_shell m).2
      { (clone m pid).1.getPkt (pool_allocate_shell m).2 with
        useCount := 0 }) (pool_allocate_shell m).2 =
      (killOwner ((clone m pid).1.setPkt (pool_allocate_shell m).2
        { (clone m pid).1.getPkt (pool_allocate_shell m).2 with
          useCount := 0 }) origin).setPkt (pool_allocate_shell m).2
        { (killOwner ((clone m pid).1.setPkt (pool_allocate_shell m).2
            { (clone m pid).1.getPkt (pool_allocate_shell m).2 with
              useCount := 0 }) origin).getPkt (pool_allocate_shell m).2 with
          bufId := none, dataOff := 0 } := by
    unfold dtorPacket
    simp only [hM3dp]
  have hcond2 : ¬((((clone m pid).1.setPkt (pool_allocate_shell m).2
      { (clone m pid).1.getPkt (pool_allocate_shell m).2 with
        useCount := 0 })).getPkt origin).useCount ≤ 1 := by
    rw [hM3o]
    show ¬((m.getPkt origin).useCount + 1 ≤ 1)
    omega
  have hko : killOwner ((clone m pid).1.setPkt (pool_allocate_shell m).2
      { (clone m pid).1.getPkt (pool_allocate_shell m).2 with
        useCount := 0 }) origin =
      ((clone m pid).1.setPkt (pool_allocate_shell m).2
        { (clone m pid).1.getPkt (pool_allocate_shell m).2 with
          useCount := 0 }).setPkt origin
        { (((clone m pid).1.setPkt (pool_allocate_shell m).2
            { (clone m pid).1.getPkt (pool_allocate_shell m).2 with
              useCount := 0 })).getPkt origin with
          useCount := ((((clone m pid).1.setPkt (pool_allocate_shell m).2
            { (clone m pid).1.getPkt (pool_allocate_shell m).2 with
              useCount := 0 })).getPkt origin).useCount - 1 } := by
    simp only [killOwner]
    rw [if_neg hcond2]
  have hrec : recycle ((clone m pid).1.setPkt (pool_allocate_shell m).2
      { (clone m pid).1.getPkt (pool_allocate_shell m).2 with
        useCount := 0 }) (pool_allocate_shell m).2 =
      { dtorPacket (check_pool_size ((clone m pid).1.setPkt
          (pool_allocate_shell m).2
          { (clone m pid).1.getPkt (pool_allocate_shell m).2 with
            useCount := 0 }) false) (pool_allocate_shell m).2 with
        pool := { (dtorPacket (check_pool_size ((clone m pid).1.setPkt
            (pool_allocate_shell m).2
            { (clone m pid).1.getPkt (pool_allocate_shell m).2 with
              useCount := 0 }) false) (pool_allocate_shell m).2).pool with
          pcount := (dtorPacket (check_pool_size ((clone m pid).1.setPkt
            (pool_allocate_shell m).2
            { (clone m pid).1.getPkt (pool_allocate_shell m).2 with
              useCount := 0 }) false) (pool_allocate_shell m).2).pool.pcount
            + 1,
          p := (pool_allocate_shell m).2 ::
            (dtorPacket (check_pool_size ((clone m pid).1.setPkt
            (pool_allocate_shell m).2
            { (clone m pid).1.getPkt (pool_allocate_shell m).2 with
              useCount := 0 }) false) (pool_allocate_shell m).2).pool.p } } := by
    simp only [recycle, recycleWith, hdata, Bool.false_eq_true, if_false]
  have hFpid : (((kill (clone m pid).1 (pool_allocate_shell m).2).getPkt
        pid).bufId = (m.getPkt pid).bufId) ∧
      (((kill (clone m pid).1 (pool_allocate_shell m).2).getPkt
        pid).dataOff = (m.getPkt pid).dataOff) ∧
      (((kill (clone m pid).1 (pool_allocate_shell m).2).getPkt
        pid).tailOff = (m.getPkt pid).tailOff) := by
    by_cases hpo : pid = origin
    · subst hpo
      refine ⟨?_, ?_, ?_⟩ <;>
        (rw [hkill, hrec, hchk, hdtor, hko, getPkt_poolset,
          getPkt_setPkt_ne _ _ _ _ hpidne, getPkt_setPkt_same, hM3o])
    · refine ⟨?_, ?_, ?_⟩ <;>
        (rw [hkill, hrec, hchk, hdtor, hko, getPkt_poolset,
          getPkt_setPkt_ne _ _ _ _ hpidne,
          getPkt_setPkt_ne _ _ _ _ hpo,
          getPkt_setPkt_ne _ _ _ _ hpidne, h1pid hpo])
  unfold cloneKillSpec
  refine ⟨?_, ?_, ?_, ?_, ?_, ?_, ?_, ?_, ?_, ?_, ?_, ?_, ?_, ?_, ?_⟩
  · rw [h1c]
  · rw [h1c]
  · rw [h1c]
  · rw [h1c]
  · rw [h1c]
  · rw [h1c]
  · rw [h1c]
  · rw [h1c]
  · rw [h1c]
  · rw [h1o]
  · rw [hkill, hrec, hchk, hdtor, hko, getPkt_poolset,
      getPkt_setPkt_ne _ _ _ _ horigne, getPkt_setPkt_same, hM3o]
    show (m.getPkt origin).useCount + 1 - 1 = (m.getPkt origin).useCount
    omega
  · rw [hkill, hrec, hchk, hdtor, hko, bufs_poolset]
    simp only [setPkt_bufs]
    exact h1bufs
  · exact hFpid.1
  · exact hFpid.2.1
  · exact hFpid.2.2

/-- A state with an owner handle 0 (`use_count` 2, standard buffer 0)
and a sharer handle 1 attached to it, empty freelists and empty global
rings. -/
def c2w_mem : Mem :=
  { bufs := fun j => if j = 0 then some ⟨2048, fun i => i + 5⟩ else none,
    nextBuf := 1,
    pkts := fun j =>
      if j = 0 then
        some { bufId := some 0, dataOff := 32, tailOff := 96, endOff := 2048,
               dataPacket := none, useCount := 2, hasDtor := false, anno := 7,
               macOff := some 3, netOff := some 11, transOff := none }
      else if j = 1 then
        some { bufId := some 0, dataOff := 32, tailOff := 96, endOff := 2048,
               dataPacket := some 0, useCount := 1, hasDtor := false,
               anno := 7, macOff := some 3, netOff := some 11,
               transOff := none }
      else none,
    nextPkt := 2,
    pool := ⟨[], 0, [], 0⟩, pbatch := ⟨fun _ => none, 0, 0⟩,
    pdbatch := ⟨fun _ => none, 0, 0⟩, freed := [] }

theorem c2_clone_then_kill_witness :
    cloneKillSpec c2w_mem 1 0 2 (clone c2w_mem 1).1
      (kill (clone c2w_mem 1).1 2) :=
  c2_clone_then_kill c2w_mem 1 0 2 (clone c2w_mem 1).1
    (kill (clone c2w_mem 1).1 2)
    (by decide) rfl rfl batchWf_ring0 (Nat.zero_le _) (by decide)
    (by decide) (by decide) (by decide)

theorem getPkt_copyToBuf (m : Mem) (b dOff : Nat) (src : Nat → Nat)
    (sOff n x : Nat) :
    (m.copyToBuf b dOff src sOff n).getPkt x = m.getPkt x := by
  unfold Mem.copyToBuf
  cases hx : m.bufs b with
  | none => rfl
  | some bf => rfl

theorem make_getPkt (m : Mem) (hr : Nat) (dat : Option (Nat → Nat))
    (ln tl x : Nat) :
    (make m hr dat ln tl).1.getPkt x =
      (pool_allocate m hr ln tl).1.getPkt x := by
  simp only [make]
  cases dat with
  | none => rfl
  | some f =>
      cases hb : ((pool_allocate m hr ln tl).1.getPkt
          (pool_allocate m hr ln tl).2).bufId with
      | none => rfl
      | some b => exact getPkt_copyToBuf _ _ _ _ _ _ _

theorem make_snd (m : Mem) (hr : Nat) (dat : Option (Nat → Nat)) (ln tl : Nat) :
    (make m hr dat ln tl).2 = some (pool_allocate m hr ln tl).2 := by
  simp only [make]

theorem getPkt_alloc_data_same (M : Mem) (pid hr ln tl : Nat) :
    (alloc_data M pid hr ln tl).getPkt pid =
      { M.getPkt pid with
          bufId := some M.nextBuf, dataOff := hr, tailOff := hr + ln,
          endOff := (if (ln + hr + tl) % U32 < min_buffer_length then
            min_buffer_length else (ln + hr + tl) % U32) } := by
  unfold alloc_data
  rw [getPkt_setPkt_same]
  rfl

theorem alloc_data_bufs_new (M : Mem) (pid hr ln tl : Nat) :
    (alloc_data M pid hr ln tl).bufs M.nextBuf =
      some ⟨(if (ln + hr + tl) % U32 < min_buffer_length then
             min_buffer_length else (ln + hr + tl) % U32), fun _ => 0⟩ := by
  unfold alloc_data
  rw [setPkt_bufs]
  show (if M.nextBuf = M.nextBuf then
    some (⟨(if (ln + hr + tl) % U32 < min_buffer_length then
            min_buffer_length else (ln + hr + tl) % U32), fun _ => 0⟩ : Buf)
    else M.bufs M.nextBuf) = _
  simp

theorem pa_pool_getPkt (m : Mem) (hr ln tl : Nat)
    (hn : (hr + ln + tl) % U32 ≤ POOL_BUFSIZ) :
    (pool_allocate m hr ln tl).1.getPkt (pool_allocate m hr ln tl).2 =
      pktInit { (pool_data_allocate m).1.getPkt (pool_data_allocate m).2 with
          dataOff := hr, tailOff := hr + ln, endOff := POOL_BUFSIZ } := by
  simp only [pool_allocate]
  rw [if_pos hn]
  rw [getPkt_setPkt_same]

theorem pa_back_getPkt (m : Mem) (hr ln tl : Nat)
    (hn : ¬ (hr + ln + tl) % U32 ≤ POOL_BUFSIZ) :
    (pool_allocate m hr ln tl).1.getPkt (pool_allocate m hr ln tl).2 =
      pktInit ((alloc_data (pool_allocate_shell m).1 (pool_allocate_shell m).2
        hr ln tl).getPkt (pool_allocate_shell m).2) := by
  simp only [pool_allocate]
  rw [if_neg hn]
  rw [getPkt_setPkt_same]

theorem byteAt_copyToBuf (m : Mem) (b dOff : Nat) (f : Nat → Nat) (n j : Nat)
    (bf : Buf) (hb : m.bufs b = some bf) (h1 : dOff ≤ j) (h2 : j < dOff + n) :
    (m.copyToBuf b dOff f 0 n).byteAt b j = f (j - dOff) := by
  unfold Mem.copyToBuf
  rw [hb]
  unfold Mem.byteAt Mem.setBuf
  show (match (if b = b then
      some { bf with bytes := copyBytes bf.bytes dOff f 0 n } else
      m.bufs b) with
    | some bf2 => bf2.bytes j
    | none => 0) = f (j - dOff)
  simp only [if_pos rfl]
  show copyBytes bf.bytes dOff f 0 n j = f (j - dOff)
  unfold copyBytes
  rw [if_pos ⟨h1, h2⟩]
  rw [Nat.zero_add]

/-- The `Packet::make` contract stated by the spec: a handle is always
returned (the backend `operator new` reports failure by throwing, so in
the model allocation never fails); the handle is freshly initialized
(`use_count` 1, zero annotation, null header offsets) with its data
window anchored at `headroom`/`headroom+length`; on either path the
supplied data is copied byte-for-byte into the handle's buffer at
`data()`; a standard pool buffer (`CLICK_PACKET_POOL_BUFSIZ` bytes)
backs it when the (uint32-wrapped) request fits, else a fresh backend
buffer of exactly the requested size; and the `alloc_data`
minimum-size floor enlarges only the tailroom, never headroom or
length. -/
def makeSpec (m : Mem) (hr ln tl : Nat) (dat : Option (Nat → Nat)) : Prop :=
  (make m hr dat ln tl).2 = some (pool_allocate m hr ln tl).2 ∧
  ((make m hr dat ln tl).1.getPkt (pool_allocate m hr ln tl).2).useCount = 1 ∧
  ((make m hr dat ln tl).1.getPkt (pool_allocate m hr ln tl).2).anno = 0 ∧
  ((make m hr dat ln tl).1.getPkt (pool_allocate m hr ln tl).2).macOff = none ∧
  ((make m hr dat ln tl).1.getPkt (pool_allocate m hr ln tl).2).netOff = none ∧
  ((make m hr dat ln tl).1.getPkt (pool_allocate m hr ln tl).2).transOff
    = none ∧
  ((make m hr dat ln tl).1.getPkt (pool_allocate m hr ln tl).2).dataOff = hr ∧
  ((make m hr dat ln tl).1.getPkt (pool_allocate m hr ln tl).2).tailOff
    = hr + ln ∧
  (∀ f b bf, dat = some f →
    ((make m hr dat ln tl).1.getPkt (pool_allocate m hr ln tl).2).bufId
      = some b →
    (pool_allocate m hr ln tl).1.bufs b = some bf →
    ∀ i, i < ln →
      (make m hr dat ln tl).1.byteAt b (hr + i) = f i) ∧
  ((hr + ln + tl) % U32 ≤ POOL_BUFSIZ →
    ((make m hr dat ln tl).1.getPkt (pool_allocate m hr ln tl).2).endOff
      = POOL_BUFSIZ) ∧
  (¬ (hr + ln + tl) % U32 ≤ POOL_BUFSIZ →
    ((make m hr dat ln tl).1.getPkt (pool_allocate m hr ln tl).2).endOff
      = (ln + hr + tl) % U32 ∧
    ((make m hr dat ln tl).1.getPkt (pool_allocate m hr ln tl).2).bufId
      = some (pool_allocate_shell m).1.nextBuf ∧
    (∀ f, dat = some f → ∀ i, i < ln →
      (make m hr dat ln tl).1.byteAt (pool_allocate_shell m).1.nextBuf
        (hr + i) = f i)) ∧
  (∀ pid, (ln + hr + tl) % U32 < min_buffer_length →
    ((alloc_data m pid hr ln tl).getPkt pid).dataOff = hr ∧
    ((alloc_data m pid hr ln tl).getPkt pid).tailOff = hr + ln ∧
    ((alloc_data m pid hr ln tl).getPkt pid).endOff = min_buffer_length)

/-- C3: `make(headroom, data, length, tailroom)` takes a handle with a
standard pool buffer when the uint32 sum `headroom+length+tailroom` is
at most CLICK_PACKET_POOL_BUFSIZ and otherwise allocates a fresh
buffer from the backend sized to the request; the `alloc_data`
minimum-size floor (64 bytes) enlarges only the tailroom; the returned
handle has `use_count` 1, zero annotation and null header offsets,
with the data (when supplied) copied into its buffer at `data()` on
both paths; and allocation never fails in the model because
`operator new` throws rather than returning null, so `make` always
returns a handle. -/
theorem c3_make_contract (m : Mem) (hr ln tl : Nat)
    (dat : Option (Nat → Nat)) : makeSpec m hr ln tl dat := by
  have hfloor : ¬ (hr + ln + tl) % U32 ≤ POOL_BUFSIZ →
      ¬ (ln + hr + tl) % U32 < min_buffer_length := by
    have e1 : POOL_BUFSIZ = 2048 := rfl
    have e2 : min_buffer_length = 64 := rfl
    have e3 : U32 = 4294967296 := rfl
    rw [e1, e2, e3]
    omega
  unfold makeSpec
  refine ⟨make_snd m hr dat ln tl, ?_, ?_, ?_, ?_, ?_, ?_, ?_, ?_, ?_, ?_, ?_⟩
  · by_cases hn : (hr + ln + tl) % U32 ≤ POOL_BUFSIZ
    · simp [make_getPkt, pa_pool_getPkt m hr ln tl hn, pktInit]
    · simp [make_getPkt, pa_back_getPkt m hr ln tl hn, pktInit]
  · by_cases hn : (hr + ln + tl) % U32 ≤ POOL_BUFSIZ
    · simp [make_getPkt, pa_pool_getPkt m hr ln tl hn, pktInit]
    · simp [make_getPkt, pa_back_getPkt m hr ln tl hn, pktInit]
  · by_cases hn : (hr + ln + tl) % U32 ≤ POOL_BUFSIZ
    · simp [make_getPkt, pa_pool_getPkt m hr ln tl hn, pktInit]
    · simp [make_getPkt, pa_back_getPkt m hr ln tl hn, pktInit]
  · by_cases hn : (hr + ln + tl) % U32 ≤ POOL_BUFSIZ
    · simp [make_getPkt, pa_pool_getPkt m hr ln tl hn, pktInit]
    · simp [make_getPkt, pa_back_getPkt m hr ln tl hn, pktInit]
  · by_cases hn : (hr + ln + tl) % U32 ≤ POOL_BUFSIZ
    · simp [make_getPkt, pa_pool_getPkt m hr ln tl hn, pktInit]
    · simp [make_getPkt, pa_back_getPkt m hr ln tl hn, pktInit]
  · by_cases hn : (hr + ln + tl) % U32 ≤ POOL_BUFSIZ
    · simp [make_getPkt, pa_pool_getPkt m hr ln tl hn, pktInit]
    · simp [make_getPkt, pa_back_getPkt m hr ln tl hn, pktInit,
        getPkt_alloc_data_same]
  · by_cases hn : (hr + ln + tl) % U32 ≤ POOL_BUFSIZ
    · simp [make_getPkt, pa_pool_getPkt m hr ln tl hn, pktInit]
    · simp [make_getPkt, pa_back_getPkt m hr ln tl hn, pktInit,
        getPkt_alloc_data_same]
  · intro f b bf hdf hbid2 hbuf2 i hi
    subst hdf
    have hbid3 : ((pool_allocate m hr ln tl).1.getPkt
        (pool_allocate m hr ln tl).2).bufId = some b := by
      rw [← make_getPkt m hr (some f) ln tl]
      exact hbid2
    have hdo : ((pool_allocate m hr ln tl).1.getPkt
        (pool_allocate m hr ln tl).2).dataOff = hr := by
      by_cases hn : (hr + ln + tl) % U32 ≤ POOL_BUFSIZ
      · rw [pa_pool_getPkt m hr ln tl hn]
        rfl
      · rw [pa_back_getPkt m hr ln tl hn, getPkt_alloc_data_same]
        rfl
    simp only [make]
    simp only [hbid3, hdo]
    rw [byteAt_copyToBuf (pool_allocate m hr ln tl).1 b hr f ln (hr + i) bf
      hbuf2 (Nat.le_add_right hr i) (by omega)]
    congr 1
    omega
  · intro hn
    simp [make_getPkt, pa_pool_getPkt m hr ln tl hn, pktInit]
  · intro hn
    refine ⟨?_, ?_, ?_⟩
    · simp [make_getPkt, pa_back_getPkt m hr ln tl hn, pktInit,
        getPkt_alloc_data_same, hfloor hn]
    · simp [make_getPkt, pa_back_getPkt m hr ln tl hn, pktInit,
        getPkt_alloc_data_same]
    · intro f hdf i hi
      subst hdf
      have hbid : ((pool_allocate m hr ln tl).1.getPkt
          (pool_allocate m hr ln tl).2).bufId
          = some (pool_allocate_shell m).1.nextBuf := by
        rw [pa_back_getPkt m hr ln tl hn, getPkt_alloc_data_same]
        rfl
      have hdoff : ((pool_allocate m hr ln tl).1.getPkt
          (pool_allocate m hr ln tl).2).dataOff = hr := by
        rw [pa_back_getPkt m hr ln tl hn, getPkt_alloc_data_same]
        rfl
      have hbuf : (pool_allocate m hr ln tl).1.bufs
          (pool_allocate_shell m).1.nextBuf
          = some ⟨(ln + hr + tl) % U32, fun _ => 0⟩ := by
        simp only [pool_allocate]
        rw [if_neg hn]
        rw [setPkt_bufs]
        rw [alloc_data_bufs_new]
        rw [if_neg (hfloor hn)]
      simp only [make]
      simp only [hbid, hdoff]
      rw [byteAt_copyToBuf (pool_allocate m hr ln tl).1
        ((pool_allocate_shell m).1.nextBuf) hr f ln (hr + i) _ hbuf
        (Nat.le_add_right hr i) (by omega)]
      congr 1
      omega
  · intro pid hf
    refine ⟨?_, ?_, ?_⟩
    · rw [getPkt_alloc_data_same]
    · rw [getPkt_alloc_data_same]
    · rw [getPkt_alloc_data_same]
      show (if (ln + hr + tl) % U32 < min_buffer_length then min_buffer_length
        else (ln + hr + tl) % U32) = min_buffer_length
      rw [if_pos hf]

theorem c3_make_contract_witness : makeSpec emptyMem 2 3 4 none :=
  c3_make_contract emptyMem 2 3 4 none

end FastclickSpec
